import Mathlib

/-!
Verification of the signed-urls library (sanity-io/signed-urls).

Strings that flow through the URL-signing pipeline are modelled as lists of
bytes (`List Nat`, each element `< 256`), matching the fact that the source
signs the UTF-8 byte encoding of the URL string (`new TextEncoder().encode`)
and that the WHATWG application/x-www-form-urlencoded serializer operates on
UTF-8 bytes.  The Ed25519 primitive is out of scope for the repository and is
abstracted as a function from message bytes to signature bytes.
-/

namespace SignedUrls

/-- UTF-8 bytes of an ASCII string literal (all literals used here are ASCII). -/
def asciiBytes (s : String) : List Nat :=
  s.data.map Char.toNat

/-! ### Base64 (source: `bytesToBase64` via Node `Buffer.toString` with the
standard alphabet, `normalizeBase64Url` and `toBase64UrlWithPadding` from
`src/utils.ts`). -/

/-- Index into the standard base64 alphabet, as a byte.  Positions 0-25 are
uppercase letters, 26-51 lowercase, 52-61 digits, 62 is plus, 63 is slash. -/
def b64EncChar (n : Nat) : Nat :=
  if n < 26 then 65 + n
  else if n < 52 then 97 + (n - 26)
  else if n < 62 then 48 + (n - 52)
  else if n = 62 then 43
  else 47

/-- Standard base64 encoding with trailing padding bytes 61 (the equals sign),
processing three input bytes into four alphabet bytes. -/
def bytesToBase64 : List Nat → List Nat
  | [] => []
  | [b1] =>
      [b64EncChar (b1 / 4), b64EncChar (b1 % 4 * 16), 61, 61]
  | [b1, b2] =>
      [b64EncChar (b1 / 4), b64EncChar (b1 % 4 * 16 + b2 / 16),
       b64EncChar (b2 % 16 * 4), 61]
  | b1 :: b2 :: b3 :: rest =>
      b64EncChar (b1 / 4) :: b64EncChar (b1 % 4 * 16 + b2 / 16) ::
      b64EncChar (b2 % 16 * 4 + b3 / 64) :: b64EncChar (b3 % 64) ::
      bytesToBase64 rest

/-- One step of source `normalizeBase64Url`: plus (43) becomes dash (45),
slash (47) becomes underscore (95), everything else is kept. -/
def nbChar (c : Nat) : Nat :=
  if c = 43 then 45 else if c = 47 then 95 else c

/-- Source `normalizeBase64Url`: swap to the URL-safe alphabet, keeping the
padding. -/
def normalizeBase64Url (bs : List Nat) : List Nat :=
  bs.map nbChar

/-- Source `toBase64UrlWithPadding` line padding the base64 string to a
multiple of four with equals signs (byte 61). -/
def padTo4 (bs : List Nat) : List Nat :=
  if bs.length % 4 = 0 then bs else bs ++ List.replicate (4 - bs.length % 4) 61

/-- Source `toBase64UrlWithPadding`: standard base64, then ensure padding,
then swap to the URL-safe alphabet. -/
def toBase64UrlWithPadding (bs : List Nat) : List Nat :=
  normalizeBase64Url (padTo4 (bytesToBase64 bs))

/-- Value of a base64 alphabet byte; accepts both the standard and the
URL-safe alphabet (as Node Buffer decoding does). -/
def b64DecChar (c : Nat) : Nat :=
  if 65 ≤ c ∧ c ≤ 90 then c - 65
  else if 97 ≤ c ∧ c ≤ 122 then c - 71
  else if 48 ≤ c ∧ c ≤ 57 then c + 4
  else if c = 43 ∨ c = 45 then 62
  else if c = 47 ∨ c = 95 then 63
  else 0

/-- Decode groups of four sextets into three bytes, with short final groups
of two or three sextets giving one or two bytes. -/
def b64DecodeCore : List Nat → List Nat
  | s1 :: s2 :: s3 :: s4 :: rest =>
      (b64DecChar s1 * 4 + b64DecChar s2 / 16) ::
      (b64DecChar s2 % 16 * 16 + b64DecChar s3 / 4) ::
      (b64DecChar s3 % 4 * 64 + b64DecChar s4) ::
      b64DecodeCore rest
  | [s1, s2, s3] =>
      [b64DecChar s1 * 4 + b64DecChar s2 / 16,
       b64DecChar s2 % 16 * 16 + b64DecChar s3 / 4]
  | [s1, s2] =>
      [b64DecChar s1 * 4 + b64DecChar s2 / 16]
  | _ => []

/-- Modelled from the spec: `base64ToBytes` (its source file is not in the
snapshot; the spec treats base64 standard decode as a trivial building block
and the tests exercise Node `Buffer.from(base64)`, which ignores padding and
accepts both alphabets): drop padding bytes, then decode sextet groups. -/
def base64ToBytes (bs : List Nat) : List Nat :=
  b64DecodeCore (bs.filter (fun c => c != 61))

/-! ### The application/x-www-form-urlencoded serializer and parser.

These model the WHATWG machinery behind `URLSearchParams` /
`url.searchParams` / `url.toString()` used by `signUrl`, `urlWithSigningParams`
(src/signing.ts) and `signAssetUrl` (src/assets.ts).  The serializer keeps
ASCII alphanumerics and `*`, `-`, `.`, `_`, turns space into `+`, and
percent-encodes every other byte with uppercase hex. -/

/-- Bytes the urlencoded serializer leaves unescaped. -/
def SafeFormByte (b : Nat) : Prop :=
  b = 42 ∨ b = 45 ∨ b = 46 ∨ b = 95 ∨
    (48 ≤ b ∧ b ≤ 57) ∨ (65 ≤ b ∧ b ≤ 90) ∨ (97 ≤ b ∧ b ≤ 122)

instance (b : Nat) : Decidable (SafeFormByte b) := by
  unfold SafeFormByte
  exact inferInstance

/-- Uppercase hex digit byte for a value below sixteen. -/
def hexDigitC (n : Nat) : Nat :=
  if n < 10 then 48 + n else 55 + n

/-- Urlencoded serialization of a single byte. -/
def formByteEnc (b : Nat) : List Nat :=
  if SafeFormByte b then [b]
  else if b = 32 then [43]
  else [37, hexDigitC (b / 16), hexDigitC (b % 16)]

/-- Urlencoded serialization of a byte sequence. -/
def formEncodeBytes : List Nat → List Nat
  | [] => []
  | b :: rest => formByteEnc b ++ formEncodeBytes rest

/-- Serialization of one name-value pair: encoded name, equals sign (61),
encoded value. -/
def pairEnc (p : List Nat × List Nat) : List Nat :=
  formEncodeBytes p.1 ++ 61 :: formEncodeBytes p.2

/-- Serialization of a parameter list, pairs joined by ampersands (38). -/
def serializeQuery : List (List Nat × List Nat) → List Nat
  | [] => []
  | [p] => pairEnc p
  | p :: q :: rest => pairEnc p ++ 38 :: serializeQuery (q :: rest)

/-- Value of a hex digit byte (both cases), if it is one. -/
def hexDigitVal (c : Nat) : Option Nat :=
  if 48 ≤ c ∧ c ≤ 57 then some (c - 48)
  else if 65 ≤ c ∧ c ≤ 70 then some (c - 55)
  else if 97 ≤ c ∧ c ≤ 102 then some (c - 87)
  else none

/-- Urlencoded percent-decoding: plus becomes space, a valid percent escape
becomes its byte, anything else is kept. -/
def formDecode : List Nat → List Nat
  | [] => []
  | 43 :: rest => 32 :: formDecode rest
  | 37 :: h :: l :: rest2 =>
      match hexDigitVal h, hexDigitVal l with
      | some hv, some lv => (16 * hv + lv) :: formDecode rest2
      | _, _ => 37 :: formDecode (h :: l :: rest2)
  | c :: rest => c :: formDecode rest
termination_by l => l.length
decreasing_by all_goals simp only [List.length_cons]; omega

def splitAmp : List Nat → List (List Nat)
  | [] => [[]]
  | c :: rest =>
    if c = 38 then [] :: splitAmp rest
    else
      match splitAmp rest with
      | a :: as => (c :: a) :: as
      | [] => [[c]]

/-- Split a byte sequence at its first equals sign (61); with none present the
whole input is the name and the value is empty, as in the urlencoded parser. -/
def splitEq : List Nat → List Nat × List Nat
  | [] => ([], [])
  | c :: rest =>
    if c = 61 then ([], rest)
    else
      let p := splitEq rest
      (c :: p.1, p.2)

/-- Parse one nonempty name-value piece. -/
def parsePair (p : List Nat) : List Nat × List Nat :=
  (formDecode (splitEq p).1, formDecode (splitEq p).2)

/-- The urlencoded parser: split on ampersands, skip empty pieces, parse each
piece into a decoded name-value pair. -/
def parseQuery (bs : List Nat) : List (List Nat × List Nat) :=
  ((splitAmp bs).filter (fun p => !p.isEmpty)).map parsePair

def WfParams (ps : List (List Nat × List Nat)) : Prop :=
  ∀ p ∈ ps, (∀ b ∈ p.1, b < 256) ∧ (∀ b ∈ p.2, b < 256)

instance (ps : List (List Nat × List Nat)) : Decidable (WfParams ps) :=
  decidable_of_iff
    (∀ p ∈ ps, (∀ b ∈ p.1, b < 256) ∧ (∀ b ∈ p.2, b < 256)) Iff.rfl

/-! ### URL model.

A WHATWG URL object after its search-parameter list has been touched: the
part before the query (scheme, host, path; the URL parser percent-encodes a
question mark occurring in the path, so `base` never contains byte 63) and
the decoded name-value pairs held by its `URLSearchParams`.  Serializing such
a URL renders the pair list through the urlencoded serializer, with no
question mark when the list is empty. -/

structure UrlModel where
  base : List Nat
  params : List (List Nat × List Nat)
deriving DecidableEq

/-- `url.toString()` after the search-parameter list was mutated. -/
def urlToString (u : UrlModel) : List Nat :=
  if u.params.isEmpty then u.base else u.base ++ 63 :: serializeQuery u.params

/-- `searchParams.delete(name)`: remove every pair with that name. -/
def spDeleteAll (ps : List (List Nat × List Nat)) (name : List Nat) :
    List (List Nat × List Nat) :=
  ps.filter (fun p => p.1 != name)

/-- `searchParams.append(name, v)`. -/
def spAppend (ps : List (List Nat × List Nat)) (name v : List Nat) :
    List (List Nat × List Nat) :=
  ps ++ [(name, v)]

/-- Replace the value of the first pair named `name` and drop the other pairs
with that name. -/
def spSetReplace : List (List Nat × List Nat) → List Nat → List Nat →
    List (List Nat × List Nat)
  | [], _, _ => []
  | p :: rest, name, v =>
      if p.1 = name then (name, v) :: rest.filter (fun q => q.1 != name)
      else p :: spSetReplace rest name v

/-- `searchParams.set(name, v)`: replace in place if present, else append. -/
def spSet (ps : List (List Nat × List Nat)) (name v : List Nat) :
    List (List Nat × List Nat) :=
  if ps.any (fun p => p.1 == name) then spSetReplace ps name v
  else ps ++ [(name, v)]

/-- Reserved parameter name `keyid` as bytes. -/
def keyidName : List Nat := asciiBytes "keyid"

/-- Reserved parameter name `expiry` as bytes. -/
def expiryName : List Nat := asciiBytes "expiry"

/-- Reserved parameter name `signature` as bytes. -/
def signatureName : List Nat := asciiBytes "signature"

/-- The three reserved parameter names. -/
def reservedNames : List (List Nat) := [keyidName, expiryName, signatureName]

/-! ### Expiry normalization (source: `normalizeExpiry` in `src/utils.ts`).

Time instants are epoch milliseconds as `Int`; a JavaScript `Date` carries
`Option Int`, `none` standing for an invalid date (`NaN` time value).  String
parsing (`new Date(string)`) is abstracted as a `parse` function.  The UTC
rendering of `Date.prototype.toISOString` is modelled with the standard
civil-from-days calendar algorithm. -/

/-- Era of the civil-from-days calculation (divisions are floor divisions, as
the divisors are positive). -/
def cfdEra (z : Int) : Int := (z + 719468) / 146097

/-- Day of era. -/
def cfdDoe (z : Int) : Int := (z + 719468) % 146097

/-- Year of era. -/
def cfdYoe (z : Int) : Int :=
  (cfdDoe z - cfdDoe z / 1460 + cfdDoe z / 36524 - cfdDoe z / 146096) / 365

/-- Day of the March-based year. -/
def cfdDoy (z : Int) : Int :=
  cfdDoe z - (365 * cfdYoe z + cfdYoe z / 4 - cfdYoe z / 100)

/-- March-based month index. -/
def cfdMp (z : Int) : Int := (5 * cfdDoy z + 2) / 153

/-- Day of month. -/
def cfdDay (z : Int) : Int := cfdDoy z - (153 * cfdMp z + 2) / 5 + 1

/-- Civil month. -/
def cfdMonth (z : Int) : Int :=
  if cfdMp z < 10 then cfdMp z + 3 else cfdMp z - 9

/-- Civil year. -/
def cfdYear (z : Int) : Int :=
  (if cfdMonth z ≤ 2 then 1 else 0) + cfdYoe z + cfdEra z * 400

/-- Year, month, day of a day number counted from 1970-01-01 (proleptic
Gregorian, the standard civil-from-days algorithm). -/
def civilFromDays (z : Int) : Int × Int × Int :=
  (cfdYear z, cfdMonth z, cfdDay z)

/-- Decimal digit character of a value taken modulo ten. -/
def decDigit (d : Int) : Char :=
  Char.ofNat (48 + (d % 10).toNat)

/-- Two fixed decimal digits. -/
def pad2 (n : Int) : List Char :=
  [decDigit (n / 10), decDigit n]

/-- Three fixed decimal digits. -/
def pad3 (n : Int) : List Char :=
  [decDigit (n / 100), decDigit (n / 10), decDigit n]

/-- Four fixed decimal digits. -/
def pad4 (n : Int) : List Char :=
  [decDigit (n / 1000), decDigit (n / 100), decDigit (n / 10), decDigit n]

/-- Six fixed decimal digits. -/
def pad6 (n : Int) : List Char :=
  [decDigit (n / 100000), decDigit (n / 10000), decDigit (n / 1000),
   decDigit (n / 100), decDigit (n / 10), decDigit n]

/-- Year rendering of `toISOString`: four digits for years 0 to 9999, the
expanded six-digit signed form outside that range. -/
def yearChars (y : Int) : List Char :=
  if 0 ≤ y ∧ y ≤ 9999 then pad4 y
  else if 9999 < y then '+' :: pad6 y
  else '-' :: pad6 (-y)

/-- Date-and-time part of `toISOString`, down to whole seconds; it depends
only on the floor of the instant in whole seconds. -/
def isoCoreChars (t : Int) : List Char :=
  yearChars (cfdYear (t / 1000 / 86400)) ++
    '-' :: pad2 (cfdMonth (t / 1000 / 86400)) ++
    '-' :: pad2 (cfdDay (t / 1000 / 86400)) ++
    'T' :: pad2 (t / 1000 % 86400 / 3600) ++
    ':' :: pad2 (t / 1000 % 86400 / 60 % 60) ++
    ':' :: pad2 (t / 1000 % 86400 % 60)

/-- `Date.prototype.toISOString` on a valid date value. -/
def jsToISOString (t : Int) : String :=
  ⟨isoCoreChars t ++ '.' :: pad3 (t % 1000) ++ ['Z']⟩

/-- The rendering of an instant truncated to whole seconds, with the trailing
marker. -/
def isoSecondsString (t : Int) : String :=
  ⟨isoCoreChars t ++ ['Z']⟩

/-- Does a five-character list look like a millisecond suffix before the
final marker, as matched by the source regular expression? -/
def isMsZTail : List Char → Bool
  | ['.', a, b, c, 'Z'] => a.isDigit && b.isDigit && c.isDigit
  | _ => false

/-- Source `.replace` of the millisecond part with the final marker. -/
def jsStripMs (s : String) : String :=
  let cs := s.data
  if isMsZTail (cs.drop (cs.length - 5)) then
    String.mk (cs.take (cs.length - 5) ++ ['Z'])
  else s

/-- An expiry argument: a `Date` object (with possibly invalid time value), a
number of epoch milliseconds, or a date string. -/
inductive ExpiryInput where
  | date : Option Int → ExpiryInput
  | num : Int → ExpiryInput
  | str : String → ExpiryInput
deriving DecidableEq

/-- Error message for an expiry not strictly in the future. -/
def futureMsg : String := "Expiry date must be in the future"

/-- Error message for an unparseable expiry string. -/
def invalidFormatMsg : String := "Invalid expiry date format"

/-- Message of the RangeError raised by `toISOString` on an invalid date. -/
def invalidTimeMsg : String := "Invalid time value"

/-- Shared tail of `normalizeExpiry` once a date value (possibly invalid) is
in hand: the not-in-the-future comparison (false for an invalid value, as any
comparison with NaN is), then ISO rendering with the milliseconds stripped,
which raises a RangeError on an invalid value. -/
def normalizeExpiryCheck (now : Int) (t : Option Int) :
    Except String (Option String) :=
  match t with
  | some v =>
      if v ≤ now then Except.error futureMsg
      else Except.ok (some (jsStripMs (jsToISOString v)))
  | none => Except.error invalidTimeMsg

/-- Source `normalizeExpiry`: absent expiry passes through; a `Date` object
is used as is; a number or string becomes a date, an unparseable string
failing the NaN check. -/
def normalizeExpiry (parse : String → Option Int) (now : Int) :
    Option ExpiryInput → Except String (Option String)
  | none => Except.ok none
  | some (ExpiryInput.date t) => normalizeExpiryCheck now t
  | some (ExpiryInput.num n) => normalizeExpiryCheck now (some n)
  | some (ExpiryInput.str s) =>
      match parse s with
      | none => Except.error invalidFormatMsg
      | some t => normalizeExpiryCheck now (some t)

/-! ### The signing orchestrators.

`sign(urlBytes, privateKeyBytes)` from the external Ed25519 library is
abstracted as `signFn : List Nat → List Nat` (the private key is a fixed
argument of the abstraction). -/

/-- Signing options: key identifier bytes and optional expiry.  The private
key of the source `SigningOptions` lives inside the abstracted `signFn`. -/
structure SigningOptions where
  keyId : List Nat
  expiry : Option ExpiryInput

/-- Source `generateSignature`: sign the URL string bytes and base64url-encode
the signature bytes. -/
def generateSignature (signFn : List Nat → List Nat) (urlBytes : List Nat) :
    List Nat :=
  toBase64UrlWithPadding (signFn urlBytes)

/-- Source `urlWithSigningParams` (src/signing.ts): delete the reserved
parameters, append `keyid`, then append the normalized expiry if present. -/
def urlWithSigningParams (parse : String → Option Int) (now : Int)
    (u : UrlModel) (opts : SigningOptions) : Except String UrlModel :=
  let ps1 := spDeleteAll u.params keyidName
  let ps2 := spDeleteAll ps1 expiryName
  let ps3 := spDeleteAll ps2 signatureName
  let ps4 := spAppend ps3 keyidName opts.keyId
  match normalizeExpiry parse now opts.expiry with
  | Except.error e => Except.error e
  | Except.ok none => Except.ok ⟨u.base, ps4⟩
  | Except.ok (some es) =>
      Except.ok ⟨u.base, spAppend ps4 expiryName (asciiBytes es)⟩

/-- Source `signUrl` (src/signing.ts, Mode A): add the signing parameters,
sign the full URL string, and return it with the signature concatenated as a
raw string. -/
def signUrl (signFn : List Nat → List Nat) (parse : String → Option Int)
    (now : Int) (u : UrlModel) (opts : SigningOptions) :
    Except String (List Nat) :=
  match urlWithSigningParams parse now u opts with
  | Except.error e => Except.error e
  | Except.ok u2 =>
      let signature := generateSignature signFn (urlToString u2)
      Except.ok (urlToString u2 ++ asciiBytes "&signature=" ++ signature)

/-- The parameter list of `signAssetUrl` just before signing: `keyid` set
(overwritten), then the normalized expiry set if present. -/
def setSigningParams (parse : String → Option Int) (now : Int)
    (ps : List (List Nat × List Nat)) (opts : SigningOptions) :
    Except String (List (List Nat × List Nat)) :=
  match normalizeExpiry parse now opts.expiry with
  | Except.error e => Except.error e
  | Except.ok eopt =>
      let ps1 := spSet ps keyidName opts.keyId
      Except.ok (match eopt with
        | some es => spSet ps1 expiryName (asciiBytes es)
        | none => ps1)

/-- Source `signAssetUrl` (src/assets.ts, Mode B): on a copy of the URL, set
`keyid` and the normalized expiry if present, sign the URL string at that
point, set `signature`, and return the URL string. -/
def signAssetUrl (signFn : List Nat → List Nat) (parse : String → Option Int)
    (now : Int) (u : UrlModel) (opts : SigningOptions) :
    Except String (List Nat) :=
  match setSigningParams parse now u.params opts with
  | Except.error e => Except.error e
  | Except.ok ps2 =>
      let signature := generateSignature signFn (urlToString ⟨u.base, ps2⟩)
      Except.ok (urlToString ⟨u.base, spSet ps2 signatureName signature⟩)


/-- The expiry parameter list contributed by a normalized expiry. -/
def expiryPart : Option String → List (List Nat × List Nat)
  | some es => [(expiryName, asciiBytes es)]
  | none => []

/-- The parameter list produced by the `keyid`/`expiry` sets of Mode B, as a
pure function of the normalized expiry. -/
def setParamsPure (ps : List (List Nat × List Nat)) (keyId : List Nat) :
    Option String → List (List Nat × List Nat)
  | some es => spSet (spSet ps keyidName keyId) expiryName (asciiBytes es)
  | none => spSet ps keyidName keyId


/-! ### Observation helpers for signed URLs. -/

/-- Number of parameters with a given name. -/
def countName (ps : List (List Nat × List Nat)) (name : List Nat) : Nat :=
  ps.countP (fun p => p.1 == name)

/-- The reserved parameters of a list, in order. -/
def reservedOnly (ps : List (List Nat × List Nat)) :
    List (List Nat × List Nat) :=
  ps.filter (fun p => reservedNames.contains p.1)

/-- The non-reserved parameters of a list, in order. -/
def nonReservedOnly (ps : List (List Nat × List Nat)) :
    List (List Nat × List Nat) :=
  ps.filter (fun p => !(reservedNames.contains p.1))

/-- The query part of a URL string: everything after the first question mark
(byte 63). -/
def queryOf (bs : List Nat) : List Nat :=
  (bs.dropWhile (fun c => c != 63)).drop 1

/-- Well-formed URL: the pre-query part has no question mark and all bytes are
bytes; the parameters are byte-valued. -/
def WfUrl (u : UrlModel) : Prop :=
  (∀ b ∈ u.base, b < 256 ∧ b ≠ 63) ∧ WfParams u.params

/-- The Mode A URL object just before signing: the non-reserved input pairs
in order, then `keyid`, then the normalized expiry if present. -/
def modeAUrl (base : List Nat) (ps : List (List Nat × List Nat))
    (keyId : List Nat) (eopt : Option String) : UrlModel :=
  ⟨base, nonReservedOnly ps ++ [(keyidName, keyId)] ++ expiryPart eopt⟩

/-- The Mode A output string for a normalized expiry. -/
def modeAOut (signFn : List Nat → List Nat) (base : List Nat)
    (ps : List (List Nat × List Nat)) (keyId : List Nat)
    (eopt : Option String) : List Nat :=
  urlToString (modeAUrl base ps keyId eopt) ++ asciiBytes "&signature=" ++
    generateSignature signFn (urlToString (modeAUrl base ps keyId eopt))

/-- The Mode B signature value for a normalized expiry: the signature of the
URL string right after the `keyid`/`expiry` sets. -/
def modeBSig (signFn : List Nat → List Nat) (base : List Nat)
    (ps : List (List Nat × List Nat)) (keyId : List Nat)
    (eopt : Option String) : List Nat :=
  generateSignature signFn (urlToString ⟨base, setParamsPure ps keyId eopt⟩)

/-- The final Mode B parameter list for a normalized expiry. -/
def modeBParams (signFn : List Nat → List Nat) (base : List Nat)
    (ps : List (List Nat × List Nat)) (keyId : List Nat)
    (eopt : Option String) : List (List Nat × List Nat) :=
  spSet (setParamsPure ps keyId eopt) signatureName
    (modeBSig signFn base ps keyId eopt)

/-! ### A store of URL objects.

`signAssetUrl` receives a caller-owned `URL` object and must not mutate it;
to state that, URL objects are modelled as slots in a store, `new URL(url)`
allocates a fresh slot holding a copy, and `searchParams.set` mutates one
slot in place. -/

/-- A store of URL objects, addressed by allocation index. -/
def UrlStore := List UrlModel

/-- Read a URL object from the store. -/
def storeGet (st : List UrlModel) (r : Nat) : UrlModel :=
  st.getD r ⟨[], []⟩

/-- Mutate one URL object in place: `st[r].searchParams.set(name, v)`. -/
def storeSetParam (st : List UrlModel) (r : Nat) (name v : List Nat) :
    List UrlModel :=
  st.set r ⟨(storeGet st r).base, spSet (storeGet st r).params name v⟩

/-- Source `signAssetUrl` against the store: allocate `new URL(url)` as a
fresh copy of the argument slot, set `keyid`, set the normalized expiry if
present, sign the URL string at that point, set `signature`, and return the
resulting store and URL string. -/
def signAssetUrlSt (signFn : List Nat → List Nat)
    (parse : String → Option Int) (now : Int) (st : List UrlModel) (r : Nat)
    (opts : SigningOptions) : Except String (List UrlModel × List Nat) :=
  let st1 := st ++ [storeGet st r]
  let b := st.length
  let st2 := storeSetParam st1 b keyidName opts.keyId
  match normalizeExpiry parse now opts.expiry with
  | Except.error e => Except.error e
  | Except.ok eopt =>
      let st3 := match eopt with
        | some es => storeSetParam st2 b expiryName (asciiBytes es)
        | none => st2
      let signature := generateSignature signFn (urlToString (storeGet st3 b))
      let st4 := storeSetParam st3 b signatureName signature
      Except.ok (st4, urlToString (storeGet st4 b))

/-! ### DER seed extraction.

Modelled from the spec: `ed25519SeedFromPkcs8` lives in `src/utils.ts`, which
is absent from the snapshot (only its tests are present).  Per the spec it
scans the buffer for every position where a byte equals the OCTET STRING tag
(0x04) immediately followed by a length byte equal to 32 (0x20) with at least
32 more bytes remaining, collects all such matches, and returns the bytes of
the last one, failing with a seed-not-found error when no match exists. -/

/-- Does a qualifying tag/length pattern start at position `i`? -/
def isSeedMatch (buf : List Nat) (i : Nat) : Bool :=
  (buf.getD i 0 == 4) && (buf.getD (i + 1) 0 == 32) &&
    decide (i + 34 ≤ buf.length)

/-- The 32 bytes following the tag and length at position `i`. -/
def seedSlice (buf : List Nat) (i : Nat) : List Nat :=
  (buf.drop (i + 2)).take 32

/-- The error message of the seed extractor. -/
def seedNotFoundMsg : String := "Ed25519 32-byte seed not found in PKCS#8"

/-- Modelled from the spec: scan for all qualifying positions and return the
bytes of the last match, or fail. -/
def ed25519SeedFromPkcs8 (buf : List Nat) : Except String (List Nat) :=
  match ((List.range buf.length).filter (isSeedMatch buf)).getLast? with
  | some i => Except.ok (seedSlice buf i)
  | none => Except.error seedNotFoundMsg

/-! ### The RFC 3986 query canonicalizer.

Modelled from the spec: `extractUserParams` and `getCanonicalQuery` are
exported by the canonical-query version of `src/signing.ts`, which is absent
from the snapshot (only a caller script references them).  Per the spec the
canonicalizer drops reserved names, percent-encodes each key and value
leaving only ASCII letters, digits, `-`, `.`, `_`, `~` unescaped (space as
`%20`, uppercase hex), sorts pairs by encoded key then encoded value
lexicographically by byte value, and joins them with ampersands. -/

/-- The RFC 3986 unreserved bytes. -/
def Rfc3986Unreserved (b : Nat) : Prop :=
  b = 45 ∨ b = 46 ∨ b = 95 ∨ b = 126 ∨
    (48 ≤ b ∧ b ≤ 57) ∨ (65 ≤ b ∧ b ≤ 90) ∨ (97 ≤ b ∧ b ≤ 122)

instance (b : Nat) : Decidable (Rfc3986Unreserved b) := by
  unfold Rfc3986Unreserved
  exact inferInstance

/-- RFC 3986 percent-encoding of a single byte, uppercase hex, space never as
plus. -/
def rfc3986ByteEnc (b : Nat) : List Nat :=
  if Rfc3986Unreserved b then [b]
  else [37, hexDigitC (b / 16), hexDigitC (b % 16)]

/-- RFC 3986 percent-encoding of a byte sequence. -/
def rfc3986Encode : List Nat → List Nat
  | [] => []
  | b :: rest => rfc3986ByteEnc b ++ rfc3986Encode rest

/-- Lexicographic byte-value comparison. -/
def lexLeBytes : List Nat → List Nat → Bool
  | [], _ => true
  | _ :: _, [] => false
  | a :: as, b :: bs =>
      if a < b then true else if b < a then false else lexLeBytes as bs

/-- Canonical ordering of pairs: by encoded key, then encoded value. -/
def canonPairLe (p q : List Nat × List Nat) : Bool :=
  if rfc3986Encode p.1 = rfc3986Encode q.1 then
    lexLeBytes (rfc3986Encode p.2) (rfc3986Encode q.2)
  else lexLeBytes (rfc3986Encode p.1) (rfc3986Encode q.1)

/-- Insertion into a canonically sorted list. -/
def insertCanon (p : List Nat × List Nat) :
    List (List Nat × List Nat) → List (List Nat × List Nat)
  | [] => [p]
  | q :: rest =>
      if canonPairLe p q then p :: q :: rest else q :: insertCanon p rest

/-- Canonical sort. -/
def sortCanon : List (List Nat × List Nat) → List (List Nat × List Nat)
  | [] => []
  | p :: rest => insertCanon p (sortCanon rest)

/-- One canonically encoded pair. -/
def canonPairEnc (p : List Nat × List Nat) : List Nat :=
  rfc3986Encode p.1 ++ 61 :: rfc3986Encode p.2

/-- Join canonically encoded pairs with ampersands. -/
def canonJoin : List (List Nat × List Nat) → List Nat
  | [] => []
  | [p] => canonPairEnc p
  | p :: q :: rest => canonPairEnc p ++ 38 :: canonJoin (q :: rest)

/-- Modelled from the spec: drop the reserved signing parameters from the
caller's query. -/
def extractUserParams (ps : List (List Nat × List Nat)) :
    List (List Nat × List Nat) :=
  ps.filter (fun p => !(reservedNames.contains p.1))

/-- Modelled from the spec: the Query Canonicalizer output. -/
def getCanonicalQuery (ps : List (List Nat × List Nat)) : List Nat :=
  canonJoin (sortCanon ps)

/-! ### Spec-side restatement of Mode A, for the refinement proof. -/

/-- Mode A as the spec words it: remove any existing reserved parameters,
append `keyid` then the normalized expiry if present, sign the resulting full
URL string, and concatenate the signature parameter as a raw string. -/
def signUrlSpec (signFn : List Nat → List Nat) (parse : String → Option Int)
    (now : Int) (u : UrlModel) (opts : SigningOptions) :
    Except String (List Nat) :=
  let cleaned := u.params.filter (fun p => !(reservedNames.contains p.1))
  match normalizeExpiry parse now opts.expiry with
  | Except.error e => Except.error e
  | Except.ok eopt =>
      let withParams := cleaned ++ [(keyidName, opts.keyId)] ++
        (match eopt with
          | some es => [(expiryName, asciiBytes es)]
          | none => [])
      let full := urlToString ⟨u.base, withParams⟩
      let signature := generateSignature signFn full
      Except.ok (full ++ asciiBytes "&signature=" ++ signature)

/-! ### Format checker for normalized expiries. -/

/-- Millisecond bound of the four-digit ISO years: midnight after
9999-12-31T23:59:59.999Z. -/
def isoMaxMs : Int := 253402300800000

/-- Does a string have the exact shape YYYY-MM-DDTHH:MM:SSZ, with decimal
digits in every placeholder position? -/
def isIsoBasicFormat (s : String) : Bool :=
  match s.data with
  | [y1, y2, y3, y4, c1, m1, m2, c2, d1, d2, c3, h1, h2, c4, i1, i2, c5,
     s1, s2, c6] =>
      y1.isDigit && y2.isDigit && y3.isDigit && y4.isDigit &&
      (c1 = '-') && m1.isDigit && m2.isDigit && (c2 = '-') &&
      d1.isDigit && d2.isDigit && (c3 = 'T') && h1.isDigit && h2.isDigit &&
      (c4 = ':') && i1.isDigit && i2.isDigit && (c5 = ':') &&
      s1.isDigit && s2.isDigit && (c6 = 'Z')
  | _ => false

/-- The instant an expiry input denotes, when it denotes one: a valid date
object's time value, a number as epoch milliseconds, a string through the
date parser. -/
def parsedInstantOf (parse : String → Option Int) : ExpiryInput → Option Int
  | ExpiryInput.date t => t
  | ExpiryInput.num n => some n
  | ExpiryInput.str s => parse s

/-! ### Supporting lemmas. -/

theorem b64DecChar_nbChar_b64EncChar :
    ∀ n : Nat, n < 64 → b64DecChar (nbChar (b64EncChar n)) = n := by
  decide

theorem nbChar_b64EncChar_ne_61 :
    ∀ n : Nat, n < 64 → nbChar (b64EncChar n) ≠ 61 := by
  decide

theorem filter61_cons_keep {c : Nat} (l : List Nat) (h : c ≠ 61) :
    (c :: l).filter (fun x => x != 61) = c :: l.filter (fun x => x != 61) := by
  rw [List.filter_cons_of_pos]
  simpa using h

theorem filter61_cons_drop (l : List Nat) :
    ((61 : Nat) :: l).filter (fun x => x != 61) = l.filter (fun x => x != 61) := by
  rw [List.filter_cons_of_neg]
  simp

theorem roundtrip_core :
    ∀ bs : List Nat, (∀ b ∈ bs, b < 256) →
      b64DecodeCore (((bytesToBase64 bs).map nbChar).filter (fun c => c != 61)) = bs
  | [], _ => rfl
  | [b1], h => by
      have hb1 : b1 < 256 := h b1 (by simp)
      simp only [bytesToBase64, List.map_cons, List.map_nil,
        show nbChar 61 = 61 from rfl]
      rw [filter61_cons_keep _ (nbChar_b64EncChar_ne_61 _ (by omega)),
        filter61_cons_keep _ (nbChar_b64EncChar_ne_61 _ (by omega)),
        filter61_cons_drop, filter61_cons_drop, List.filter_nil]
      simp only [b64DecodeCore]
      rw [b64DecChar_nbChar_b64EncChar _ (by omega),
        b64DecChar_nbChar_b64EncChar _ (by omega)]
      simp only [List.cons.injEq, and_true]
      omega
  | [b1, b2], h => by
      have hb1 : b1 < 256 := h b1 (by simp)
      have hb2 : b2 < 256 := h b2 (by simp)
      simp only [bytesToBase64, List.map_cons, List.map_nil,
        show nbChar 61 = 61 from rfl]
      rw [filter61_cons_keep _ (nbChar_b64EncChar_ne_61 _ (by omega)),
        filter61_cons_keep _ (nbChar_b64EncChar_ne_61 _ (by omega)),
        filter61_cons_keep _ (nbChar_b64EncChar_ne_61 _ (by omega)),
        filter61_cons_drop, List.filter_nil]
      simp only [b64DecodeCore]
      rw [b64DecChar_nbChar_b64EncChar _ (by omega),
        b64DecChar_nbChar_b64EncChar _ (by omega),
        b64DecChar_nbChar_b64EncChar _ (by omega)]
      simp only [List.cons.injEq, and_true]
      omega
  | b1 :: b2 :: b3 :: rest, h => by
      have hb1 : b1 < 256 := h b1 (by simp)
      have hb2 : b2 < 256 := h b2 (by simp)
      have hb3 : b3 < 256 := h b3 (by simp)
      have ih := roundtrip_core rest (fun b hb => h b (by simp [hb]))
      simp only [bytesToBase64, List.map_cons]
      rw [filter61_cons_keep _ (nbChar_b64EncChar_ne_61 _ (by omega)),
        filter61_cons_keep _ (nbChar_b64EncChar_ne_61 _ (by omega)),
        filter61_cons_keep _ (nbChar_b64EncChar_ne_61 _ (by omega)),
        filter61_cons_keep _ (nbChar_b64EncChar_ne_61 _ (by omega))]
      simp only [b64DecodeCore, ih]
      rw [b64DecChar_nbChar_b64EncChar _ (by omega),
        b64DecChar_nbChar_b64EncChar _ (by omega),
        b64DecChar_nbChar_b64EncChar _ (by omega),
        b64DecChar_nbChar_b64EncChar _ (by omega)]
      simp only [List.cons.injEq, and_true]
      omega

/-- Round trip of the source encoder with the modelled decoder, on byte
lists. -/
theorem base64_roundtrip (bs : List Nat) (h : ∀ b ∈ bs, b < 256) :
    base64ToBytes (toBase64UrlWithPadding bs) = bs := by
  unfold toBase64UrlWithPadding base64ToBytes normalizeBase64Url padTo4
  split
  · exact roundtrip_core bs h
  · rw [List.map_append, List.filter_append, List.map_replicate,
      show nbChar 61 = 61 from rfl]
    have : (List.replicate (4 - (bytesToBase64 bs).length % 4) 61).filter
        (fun c => c != 61) = [] := by
      simp
    rw [this, List.append_nil]
    exact roundtrip_core bs h

theorem formDecode_nil : formDecode [] = [] :=
  formDecode.eq_1

theorem formDecode_cons_other {c : Nat} (rest : List Nat)
    (h1 : c ≠ 43) (h2 : c ≠ 37) :
    formDecode (c :: rest) = c :: formDecode rest :=
  formDecode.eq_4 c rest (fun hc => absurd hc h1)
    (fun _ _ _ hc _ => absurd hc h2)

theorem formDecode_plus (rest : List Nat) :
    formDecode (43 :: rest) = 32 :: formDecode rest :=
  formDecode.eq_2 rest

theorem formDecode_percent {h l : Nat} (rest : List Nat) {hv lv : Nat}
    (hh : hexDigitVal h = some hv) (hl : hexDigitVal l = some lv) :
    formDecode (37 :: h :: l :: rest) = (16 * hv + lv) :: formDecode rest := by
  rw [formDecode.eq_3, hh, hl]

/-- Split a byte sequence on ampersands (38). -/
theorem hexDigitVal_hexDigitC : ∀ n : Nat, n < 16 → hexDigitVal (hexDigitC n) = some n := by
  decide

theorem formByteEnc_ne :
    ∀ b : Nat, ∀ c ∈ formByteEnc b, c ≠ 38 ∧ c ≠ 61 ∧ c ≠ 63 := by
  intro b c hc
  unfold formByteEnc at hc
  split at hc
  · rename_i hs
    simp only [List.mem_singleton] at hc
    subst hc
    unfold SafeFormByte at hs
    omega
  · split at hc
    · simp only [List.mem_singleton] at hc
      omega
    · simp only [List.mem_cons, List.mem_singleton, List.not_mem_nil, or_false] at hc
      have h1 : ∀ m : Nat, hexDigitC m ≠ 38 ∧ hexDigitC m ≠ 61 ∧ hexDigitC m ≠ 63 := by
        intro m
        unfold hexDigitC
        split <;> omega
      rcases hc with h | h | h
      · omega
      · rw [h]; exact h1 _
      · rw [h]; exact h1 _

theorem formEncodeBytes_ne :
    ∀ s : List Nat, ∀ c ∈ formEncodeBytes s, c ≠ 38 ∧ c ≠ 61 ∧ c ≠ 63
  | [], c, hc => by simp [formEncodeBytes] at hc
  | b :: rest, c, hc => by
      simp only [formEncodeBytes, List.mem_append] at hc
      rcases hc with h | h
      · exact formByteEnc_ne b c h
      · exact formEncodeBytes_ne rest c h

theorem formDecode_formEncode :
    ∀ s : List Nat, (∀ b ∈ s, b < 256) → formDecode (formEncodeBytes s) = s
  | [], _ => formDecode_nil
  | b :: rest, h => by
      have hb : b < 256 := h b (by simp)
      have ih := formDecode_formEncode rest (fun x hx => h x (by simp [hx]))
      simp only [formEncodeBytes, formByteEnc]
      split
      · rename_i hs
        have hne43 : b ≠ 43 := by unfold SafeFormByte at hs; omega
        have hne37 : b ≠ 37 := by unfold SafeFormByte at hs; omega
        rw [List.cons_append, List.nil_append,
          formDecode_cons_other _ hne43 hne37, ih]
      · split
        · rename_i hsp
          rw [List.cons_append, List.nil_append, hsp, formDecode_plus, ih]
        · rw [List.cons_append, List.cons_append, List.cons_append,
            List.nil_append,
            formDecode_percent _ (hexDigitVal_hexDigitC _ (by omega))
              (hexDigitVal_hexDigitC _ (by omega)), ih]
          simp only [List.cons.injEq, and_true]
          omega

theorem formDecode_fixed :
    ∀ s : List Nat, (∀ c ∈ s, c ≠ 43 ∧ c ≠ 37) → formDecode s = s
  | [], _ => formDecode_nil
  | c :: rest, h => by
      have hc := h c (by simp)
      have ih := formDecode_fixed rest (fun x hx => h x (by simp [hx]))
      rw [formDecode_cons_other _ hc.1 hc.2, ih]

theorem splitAmp_no_sep :
    ∀ a : List Nat, (∀ c ∈ a, c ≠ 38) → splitAmp a = [a]
  | [], _ => rfl
  | c :: rest, h => by
      have ih := splitAmp_no_sep rest (fun x hx => h x (by simp [hx]))
      simp only [splitAmp, if_neg (h c (by simp)), ih]

theorem splitAmp_append :
    ∀ a b : List Nat, (∀ c ∈ a, c ≠ 38) →
      splitAmp (a ++ 38 :: b) = a :: splitAmp b
  | [], b, _ => by simp [splitAmp]
  | c :: rest, b, h => by
      have ih := splitAmp_append rest b (fun x hx => h x (by simp [hx]))
      simp only [List.cons_append, splitAmp, if_neg (h c (by simp)),
        List.append_eq]
      rw [ih]

theorem splitEq_append :
    ∀ a b : List Nat, (∀ c ∈ a, c ≠ 61) →
      splitEq (a ++ 61 :: b) = (a, b)
  | [], b, _ => by simp [splitEq]
  | c :: rest, b, h => by
      have ih := splitEq_append rest b (fun x hx => h x (by simp [hx]))
      simp only [List.cons_append, splitEq, if_neg (h c (by simp)),
        List.append_eq]
      rw [ih]

/-- Well-formed parameter list: every name and value byte is an actual byte. -/
theorem pairEnc_ne_nil (p : List Nat × List Nat) : pairEnc p ≠ [] := by
  unfold pairEnc
  intro hcontra
  have := List.append_eq_nil.mp hcontra
  exact absurd this.2 (by simp)

theorem parsePair_pairEnc (p : List Nat × List Nat)
    (h1 : ∀ b ∈ p.1, b < 256) (h2 : ∀ b ∈ p.2, b < 256) :
    parsePair (pairEnc p) = p := by
  unfold parsePair pairEnc
  rw [splitEq_append _ _ (fun c hc => (formEncodeBytes_ne _ c hc).2.1)]
  simp only [formDecode_formEncode _ h1, formDecode_formEncode _ h2]

theorem parseQuery_serialize_append :
    ∀ ps : List (List Nat × List Nat), ∀ x : List Nat, WfParams ps →
      parseQuery (serializeQuery ps ++ 38 :: x) = ps ++ parseQuery x
  | [], x, _ => by
      simp [serializeQuery, parseQuery, splitAmp]
  | [p], x, h => by
      have hp := h p (by simp)
      simp only [serializeQuery, parseQuery]
      rw [splitAmp_append _ _ (fun c hc => by
        unfold pairEnc at hc
        rcases List.mem_append.mp hc with hm | hm
        · exact (formEncodeBytes_ne _ c hm).1
        · rcases List.mem_cons.mp hm with hm2 | hm2
          · omega
          · exact (formEncodeBytes_ne _ c hm2).1)]
      simp only [List.filter_cons]
      rw [if_pos (by simpa using pairEnc_ne_nil p)]
      simp only [List.map_cons, parsePair_pairEnc p hp.1 hp.2]
      rfl
  | p :: q :: rest, x, h => by
      have hp := h p (by simp)
      have ih := parseQuery_serialize_append (q :: rest) x
        (fun r hr => h r (by simp only [List.mem_cons] at hr ⊢; tauto))
      simp only [serializeQuery, List.append_assoc, List.cons_append]
      simp only [parseQuery] at ih ⊢
      rw [splitAmp_append _ _ (fun c hc => by
        unfold pairEnc at hc
        rcases List.mem_append.mp hc with hm | hm
        · exact (formEncodeBytes_ne _ c hm).1
        · rcases List.mem_cons.mp hm with hm2 | hm2
          · omega
          · exact (formEncodeBytes_ne _ c hm2).1)]
      simp only [List.filter_cons]
      rw [if_pos (by simpa using pairEnc_ne_nil p)]
      simp only [List.map_cons, parsePair_pairEnc p hp.1 hp.2]
      rw [ih, List.cons_append]

theorem parseQuery_serialize :
    ∀ ps : List (List Nat × List Nat), WfParams ps →
      parseQuery (serializeQuery ps) = ps
  | [], _ => rfl
  | [p], h => by
      have hp := h p (by simp)
      simp only [serializeQuery, parseQuery]
      rw [splitAmp_no_sep _ (fun c hc => by
        unfold pairEnc at hc
        rcases List.mem_append.mp hc with hm | hm
        · exact (formEncodeBytes_ne _ c hm).1
        · rcases List.mem_cons.mp hm with hm2 | hm2
          · omega
          · exact (formEncodeBytes_ne _ c hm2).1)]
      simp only [List.filter_cons]
      rw [if_pos (by simpa using pairEnc_ne_nil p)]
      simp only [List.filter_nil, List.map_cons, List.map_nil,
        parsePair_pairEnc p hp.1 hp.2]
  | p :: q :: rest, h => by
      have hp := h p (by simp)
      have ih := parseQuery_serialize (q :: rest)
        (fun r hr => h r (by simp only [List.mem_cons] at hr ⊢; tauto))
      have key := parseQuery_serialize_append [p] (serializeQuery (q :: rest))
        (fun r hr => by
          simp only [List.mem_singleton] at hr
          subst hr
          exact hp)
      calc parseQuery (serializeQuery (p :: q :: rest))
          = parseQuery (serializeQuery [p] ++ 38 :: serializeQuery (q :: rest)) := by
            simp only [serializeQuery]
        _ = [p] ++ parseQuery (serializeQuery (q :: rest)) := key
        _ = p :: q :: rest := by rw [ih]; rfl

theorem cfdEra_bounds (z : Int) (h0 : 0 ≤ z) (h1 : z ≤ 2932896) :
    4 ≤ cfdEra z ∧ cfdEra z ≤ 24 := by
  unfold cfdEra
  omega

theorem cfdDoe_bounds (z : Int) (h0 : 0 ≤ z) (h1 : z ≤ 2932896) :
    0 ≤ cfdDoe z ∧ cfdDoe z ≤ 146096 ∧ (cfdEra z = 24 → cfdDoe z ≤ 146036) := by
  unfold cfdDoe cfdEra
  omega

theorem cfdYoe_bounds (z : Int) (_h0 : 0 ≤ z) (_h1 : z ≤ 2932896) :
    0 ≤ cfdYoe z ∧ cfdYoe z ≤ 399 := by
  unfold cfdYoe cfdDoe
  omega

theorem cfdDoy_tight (z : Int) (h0 : 0 ≤ z) (h1 : z ≤ 2932896)
    (he : cfdEra z = 24) (hy : cfdYoe z = 399) :
    0 ≤ cfdDoy z ∧ cfdDoy z ≤ 305 := by
  unfold cfdDoy at *
  unfold cfdYoe at *
  unfold cfdDoe at *
  unfold cfdEra at *
  omega

theorem cfdYear_bounds (z : Int) (h0 : 0 ≤ z) (h1 : z ≤ 2932896) :
    0 ≤ cfdYear z ∧ cfdYear z ≤ 9999 := by
  have he := cfdEra_bounds z h0 h1
  have hy := cfdYoe_bounds z h0 h1
  unfold cfdYear
  by_cases hcase : cfdEra z = 24 ∧ cfdYoe z = 399
  · have ht := cfdDoy_tight z h0 h1 hcase.1 hcase.2
    have hmp : 0 ≤ cfdMp z ∧ cfdMp z ≤ 9 := by
      unfold cfdMp
      omega
    have hmo : ¬ cfdMonth z ≤ 2 := by
      unfold cfdMonth
      split <;> omega
    rw [if_neg hmo]
    omega
  · split <;> omega

theorem decDigit_toNat (d : Int) : (decDigit d).toNat = 48 + (d % 10).toNat := by
  unfold decDigit
  have h3 : (d % 10).toNat ≤ 9 := by omega
  set k := (d % 10).toNat with hk
  interval_cases k <;> decide

theorem decDigit_isDigit (d : Int) : (decDigit d).isDigit = true := by
  unfold decDigit
  have h1 : 0 ≤ d % 10 := by omega
  have h2 : d % 10 < 10 := by omega
  have h3 : (d % 10).toNat ≤ 9 := by omega
  set k := (d % 10).toNat with hk
  interval_cases k <;> decide

theorem jsStripMs_jsToISOString (t : Int) :
    jsStripMs (jsToISOString t) = isoSecondsString t := by
  unfold jsStripMs jsToISOString isoSecondsString
  simp only [String.data]
  have hlen : (isoCoreChars t ++ '.' :: pad3 (t % 1000) ++ ['Z']).length =
      (isoCoreChars t).length + 5 := by
    simp [pad3]
  rw [hlen]
  have harr : isoCoreChars t ++ '.' :: pad3 (t % 1000) ++ ['Z'] =
      isoCoreChars t ++ ('.' :: pad3 (t % 1000) ++ ['Z']) := by
    simp
  have htail : ('.' :: pad3 (t % 1000) ++ ['Z']) =
      ['.', decDigit (t % 1000 / 100), decDigit (t % 1000 / 10),
       decDigit (t % 1000), 'Z'] := by
    simp [pad3]
  have hdrop : (isoCoreChars t ++ ('.' :: pad3 (t % 1000) ++ ['Z'])).drop
      ((isoCoreChars t).length + 5 - 5) = '.' :: pad3 (t % 1000) ++ ['Z'] := by
    rw [Nat.add_sub_cancel, List.drop_left]
  have htake : (isoCoreChars t ++ ('.' :: pad3 (t % 1000) ++ ['Z'])).take
      ((isoCoreChars t).length + 5 - 5) = isoCoreChars t := by
    rw [Nat.add_sub_cancel, List.take_left]
  have hms : isMsZTail ('.' :: pad3 (t % 1000) ++ ['Z']) = true := by
    simp [pad3, isMsZTail, decDigit_isDigit]
  rw [harr, hdrop, if_pos hms, htake]

theorem isoSecondsString_congr (t t2 : Int) (h : t / 1000 = t2 / 1000) :
    isoSecondsString t = isoSecondsString t2 := by
  unfold isoSecondsString isoCoreChars
  rw [h]

theorem isoSecondsString_format (t : Int) (h0 : 0 ≤ t) (h1 : t < isoMaxMs) :
    isIsoBasicFormat (isoSecondsString t) = true := by
  unfold isoSecondsString isoCoreChars
  have hdays : 0 ≤ t / 1000 / 86400 ∧ t / 1000 / 86400 ≤ 2932896 := by
    unfold isoMaxMs at h1
    omega
  have hyear := cfdYear_bounds (t / 1000 / 86400) hdays.1 hdays.2
  rw [show yearChars (cfdYear (t / 1000 / 86400)) =
      pad4 (cfdYear (t / 1000 / 86400)) from if_pos hyear]
  simp only [pad4, pad2, List.cons_append, List.nil_append]
  simp [isIsoBasicFormat, decDigit_isDigit]

theorem bytesToBase64_mem :
    ∀ bs : List Nat, ∀ x ∈ bytesToBase64 bs, (∃ n, x = b64EncChar n) ∨ x = 61
  | [], x, hx => by simp [bytesToBase64] at hx
  | [b1], x, hx => by
      simp only [bytesToBase64, List.mem_cons, List.not_mem_nil, or_false] at hx
      rcases hx with h | h | h | h
      · exact Or.inl ⟨_, h⟩
      · exact Or.inl ⟨_, h⟩
      · exact Or.inr h
      · exact Or.inr h
  | [b1, b2], x, hx => by
      simp only [bytesToBase64, List.mem_cons, List.not_mem_nil, or_false] at hx
      rcases hx with h | h | h | h
      · exact Or.inl ⟨_, h⟩
      · exact Or.inl ⟨_, h⟩
      · exact Or.inl ⟨_, h⟩
      · exact Or.inr h
  | b1 :: b2 :: b3 :: rest, x, hx => by
      simp only [bytesToBase64, List.mem_cons] at hx
      rcases hx with h | h | h | h | h
      · exact Or.inl ⟨_, h⟩
      · exact Or.inl ⟨_, h⟩
      · exact Or.inl ⟨_, h⟩
      · exact Or.inl ⟨_, h⟩
      · exact bytesToBase64_mem rest x h

theorem b64EncChar_range (n : Nat) :
    b64EncChar n = 43 ∨ b64EncChar n = 47 ∨
    (48 ≤ b64EncChar n ∧ b64EncChar n ≤ 57) ∨
    (65 ≤ b64EncChar n ∧ b64EncChar n ≤ 90) ∨
    (97 ≤ b64EncChar n ∧ b64EncChar n ≤ 122) := by
  unfold b64EncChar
  repeat' split
  all_goals omega

theorem b64url_member_facts (bs : List Nat) :
    ∀ c ∈ toBase64UrlWithPadding bs,
      c < 256 ∧ c ≠ 43 ∧ c ≠ 37 ∧ c ≠ 38 ∧ c ≠ 63 := by
  intro c hc
  unfold toBase64UrlWithPadding normalizeBase64Url at hc
  rcases List.mem_map.mp hc with ⟨x, hx, rfl⟩
  have hx2 : x ∈ bytesToBase64 bs ∨ x = 61 := by
    unfold padTo4 at hx
    split at hx
    · exact Or.inl hx
    · rcases List.mem_append.mp hx with h | h
      · exact Or.inl h
      · exact Or.inr (List.eq_of_mem_replicate h)
  rcases hx2 with h | rfl
  · rcases bytesToBase64_mem bs x h with ⟨n, rfl⟩ | rfl
    · have hr := b64EncChar_range n
      unfold nbChar
      repeat' split
      all_goals omega
    · simp [nbChar]
  · simp [nbChar]

theorem queryOf_append (base rest : List Nat) (h : ∀ b ∈ base, b ≠ 63) :
    queryOf (base ++ 63 :: rest) = rest := by
  unfold queryOf
  induction base with
  | nil => simp [List.dropWhile]
  | cons c cs ih =>
      have hc : (c != 63) = true := by simpa using h c (by simp)
      simp only [List.cons_append, List.dropWhile_cons, hc, if_true]
      exact ih (fun b hb => h b (by simp [hb]))

theorem spSet_of_not_mem (ps : List (List Nat × List Nat)) (n v : List Nat)
    (h : ∀ p ∈ ps, p.1 ≠ n) : spSet ps n v = ps ++ [(n, v)] := by
  unfold spSet
  rw [if_neg]
  simp only [List.any_eq_true, beq_iff_eq, not_exists, not_and]
  intro p hp
  exact h p hp

theorem countName_spSetReplace (ps : List (List Nat × List Nat))
    (n v : List Nat) (h : ∃ p ∈ ps, p.1 = n) :
    countName (spSetReplace ps n v) n = 1 := by
  induction ps with
  | nil => simp at h
  | cons p rest ih =>
      unfold spSetReplace
      split
      · rename_i hpn
        unfold countName
        simp only [List.countP_cons, beq_self_eq_true, if_pos, cond_true]
        have : (rest.filter (fun q => q.1 != n)).countP
            (fun q => q.1 == n) = 0 := by
          rw [List.countP_filter]
          apply List.countP_eq_zero.mpr
          intro q hq
          simp
        unfold countName at this
        omega
      · rename_i hpn
        have h2 : ∃ q ∈ rest, q.1 = n := by
          rcases h with ⟨q, hq, hqn⟩
          rcases List.mem_cons.mp hq with rfl | hq2
          · exact absurd hqn hpn
          · exact ⟨q, hq2, hqn⟩
        unfold countName at ih ⊢
        simp only [List.countP_cons]
        rw [ih h2]
        have : (p.1 == n) = false := by simpa using hpn
        simp [this]

theorem countName_spSet (ps : List (List Nat × List Nat)) (n v : List Nat) :
    countName (spSet ps n v) n = 1 := by
  unfold spSet
  split
  · rename_i hany
    apply countName_spSetReplace
    simpa using hany
  · rename_i hany
    unfold countName
    rw [List.countP_append]
    have h1 : ps.countP (fun p => p.1 == n) = 0 := by
      apply List.countP_eq_zero.mpr
      intro q hq
      simp only [List.any_eq_true] at hany
      simp only [Bool.not_eq_true]
      by_contra hcon
      exact hany ⟨q, hq, by simpa using hcon⟩
    simp [h1]

theorem countName_spSetReplace_ne (ps : List (List Nat × List Nat))
    (n v m : List Nat) (h : m ≠ n) :
    countName (spSetReplace ps n v) m = countName ps m := by
  induction ps with
  | nil => rfl
  | cons p rest ih =>
      unfold spSetReplace
      split
      · rename_i hpn
        unfold countName
        simp only [List.countP_cons]
        rw [List.countP_filter]
        have hcongr : rest.countP (fun q => q.1 == m && q.1 != n) =
            rest.countP (fun q => q.1 == m) := by
          apply List.countP_congr
          intro q hq
          by_cases hqm : q.1 = m
          · simp [hqm, h]
          · simp [hqm]
        rw [hcongr]
        have h1 : ((n, v).1 == m) = false := by
          simp only [beq_eq_false_iff_ne, ne_eq]
          exact fun hc => h hc.symm
        have h2 : (p.1 == m) = false := by
          simp only [beq_eq_false_iff_ne, ne_eq, hpn]
          exact fun hc => h hc.symm
        simp [h1, h2]
      · unfold countName at ih ⊢
        simp only [List.countP_cons, ih]

theorem countName_spSet_ne (ps : List (List Nat × List Nat))
    (n v m : List Nat) (h : m ≠ n) :
    countName (spSet ps n v) m = countName ps m := by
  unfold spSet
  split
  · exact countName_spSetReplace_ne ps n v m h
  · unfold countName
    rw [List.countP_append]
    have : ((n, v).1 == m) = false := by
      simp only [beq_eq_false_iff_ne, ne_eq]
      exact fun hc => h hc.symm
    simp [this]

theorem mem_spSetReplace :
    ∀ ps : List (List Nat × List Nat), ∀ n v q,
      q ∈ spSetReplace ps n v → q = (n, v) ∨ q ∈ ps
  | [], n, v, q, hq => by simp [spSetReplace] at hq
  | p :: rest, n, v, q, hq => by
      unfold spSetReplace at hq
      split at hq
      · rcases List.mem_cons.mp hq with rfl | h2
        · exact Or.inl rfl
        · exact Or.inr (List.mem_cons_of_mem p (List.mem_filter.mp h2).1)
      · rcases List.mem_cons.mp hq with rfl | h2
        · exact Or.inr (List.mem_cons_self q rest)
        · rcases mem_spSetReplace rest n v q h2 with h3 | h3
          · exact Or.inl h3
          · exact Or.inr (List.mem_cons_of_mem p h3)

theorem mem_spSet (ps : List (List Nat × List Nat)) (n v : List Nat)
    (q : List Nat × List Nat)
    (hq : q ∈ spSet ps n v) : q = (n, v) ∨ q ∈ ps := by
  unfold spSet at hq
  split at hq
  · exact mem_spSetReplace ps n v q hq
  · rcases List.mem_append.mp hq with h | h
    · exact Or.inr h
    · exact Or.inl (by simpa using h)

theorem spSetReplace_ne_nil (p : List Nat × List Nat)
    (rest : List (List Nat × List Nat)) (n v : List Nat) :
    spSetReplace (p :: rest) n v ≠ [] := by
  unfold spSetReplace
  split <;> simp

theorem spSet_ne_nil (ps : List (List Nat × List Nat)) (n v : List Nat) :
    spSet ps n v ≠ [] := by
  unfold spSet
  split
  · rename_i hany
    cases ps with
    | nil => simp at hany
    | cons p rest => exact spSetReplace_ne_nil p rest n v
  · simp

theorem wfParams_spSet (ps : List (List Nat × List Nat)) (n v : List Nat)
    (h : WfParams ps) (hn : ∀ b ∈ n, b < 256) (hv : ∀ b ∈ v, b < 256) :
    WfParams (spSet ps n v) := by
  intro q hq
  rcases mem_spSet ps n v q hq with rfl | h2
  · exact ⟨hn, hv⟩
  · exact h q h2

theorem nonReservedOnly_spSetReplace
    (ps : List (List Nat × List Nat)) (n v : List Nat)
    (hn : reservedNames.contains n = true) :
    nonReservedOnly (spSetReplace ps n v) = nonReservedOnly ps := by
  have hn2 : n ∈ reservedNames := by simpa using hn
  induction ps with
  | nil => rfl
  | cons p rest ih =>
      unfold spSetReplace
      split
      · rename_i hpn
        unfold nonReservedOnly
        simp only [List.filter_cons]
        rw [if_neg (by simp [hn2]), if_neg (by simp [hpn, hn2])]
        rw [List.filter_filter]
        apply List.filter_congr
        intro q hq
        by_cases hqr : q.1 ∈ reservedNames
        · simp [hqr]
        · have hqn : q.1 ≠ n := fun hc => hqr (hc ▸ hn2)
          simp [hqr, hqn]
      · unfold nonReservedOnly at ih ⊢
        simp only [List.filter_cons, ih]

theorem nonReservedOnly_spSet (ps : List (List Nat × List Nat)) (n v : List Nat)
    (hn : reservedNames.contains n = true) :
    nonReservedOnly (spSet ps n v) = nonReservedOnly ps := by
  unfold spSet
  split
  · exact nonReservedOnly_spSetReplace ps n v hn
  · unfold nonReservedOnly
    rw [List.filter_append]
    have hn2 : n ∈ reservedNames := by simpa using hn
    simp [hn2]

theorem spDeleteAll_reserved (ps : List (List Nat × List Nat)) :
    spDeleteAll (spDeleteAll (spDeleteAll ps keyidName) expiryName)
      signatureName = nonReservedOnly ps := by
  unfold spDeleteAll nonReservedOnly
  rw [List.filter_filter, List.filter_filter]
  apply List.filter_congr
  intro p hp
  by_cases h1 : p.1 = keyidName <;> by_cases h2 : p.1 = expiryName <;>
    by_cases h3 : p.1 = signatureName <;>
    simp [h1, h2, h3, reservedNames, List.contains]

theorem nonReservedOnly_not_reserved (ps : List (List Nat × List Nat)) :
    ∀ q ∈ nonReservedOnly ps, reservedNames.contains q.1 = false := by
  intro q hq
  have := (List.mem_filter.mp hq).2
  simpa using this

theorem wfParams_nonReservedOnly (ps : List (List Nat × List Nat))
    (h : WfParams ps) : WfParams (nonReservedOnly ps) :=
  fun q hq => h q (List.mem_filter.mp hq).1

theorem wfParams_append (ps qs : List (List Nat × List Nat))
    (h1 : WfParams ps) (h2 : WfParams qs) : WfParams (ps ++ qs) := by
  intro q hq
  rcases List.mem_append.mp hq with h | h
  · exact h1 q h
  · exact h2 q h

theorem formByteEnc_byte (b : Nat) (hb : b < 256) :
    ∀ c ∈ formByteEnc b, c < 256 ∧ c ≠ 63 := by
  intro c hc
  unfold formByteEnc at hc
  split at hc
  · rename_i hs
    simp only [List.mem_singleton] at hc
    subst hc
    unfold SafeFormByte at hs
    omega
  · split at hc
    · simp only [List.mem_singleton] at hc
      omega
    · simp only [List.mem_cons, List.mem_singleton, List.not_mem_nil,
        or_false] at hc
      have hh : ∀ m : Nat, m < 16 → hexDigitC m < 256 ∧ hexDigitC m ≠ 63 := by
        intro m hm
        unfold hexDigitC
        split <;> omega
      rcases hc with h | h | h
      · omega
      · rw [h]; exact hh _ (by omega)
      · rw [h]; exact hh _ (by omega)

theorem formEncodeBytes_byte :
    ∀ s : List Nat, (∀ b ∈ s, b < 256) →
      ∀ c ∈ formEncodeBytes s, c < 256 ∧ c ≠ 63
  | [], _, c, hc => by simp [formEncodeBytes] at hc
  | b :: rest, h, c, hc => by
      simp only [formEncodeBytes, List.mem_append] at hc
      rcases hc with h2 | h2
      · exact formByteEnc_byte b (h b (by simp)) c h2
      · exact formEncodeBytes_byte rest (fun x hx => h x (by simp [hx])) c h2

theorem serializeQuery_byte :
    ∀ ps : List (List Nat × List Nat), WfParams ps →
      ∀ c ∈ serializeQuery ps, c < 256 ∧ c ≠ 63
  | [], _, c, hc => by simp [serializeQuery] at hc
  | [p], h, c, hc => by
      have hp := h p (by simp)
      simp only [serializeQuery, pairEnc, List.mem_append, List.mem_cons] at hc
      rcases hc with h2 | h2 | h2
      · exact formEncodeBytes_byte _ hp.1 c h2
      · omega
      · exact formEncodeBytes_byte _ hp.2 c h2
  | p :: q :: rest, h, c, hc => by
      have hp := h p (by simp)
      simp only [serializeQuery, pairEnc, List.mem_append, List.mem_cons] at hc
      rcases hc with (h2 | h2 | h2) | h2 | h2
      · exact formEncodeBytes_byte _ hp.1 c h2
      · omega
      · exact formEncodeBytes_byte _ hp.2 c h2
      · omega
      · exact serializeQuery_byte (q :: rest)
          (fun r hr => h r (by simp only [List.mem_cons] at hr ⊢; tauto)) c h2

theorem urlToString_byte (u : UrlModel) (hwf : WfUrl u) :
    ∀ c ∈ urlToString u, c < 256 := by
  intro c hc
  unfold urlToString at hc
  split at hc
  · exact (hwf.1 c hc).1
  · rcases List.mem_append.mp hc with h | h
    · exact (hwf.1 c h).1
    · rcases List.mem_cons.mp h with rfl | h2
      · omega
      · exact (serializeQuery_byte u.params hwf.2 c h2).1

theorem normalizeExpiry_ok_some (parse : String → Option Int) (now : Int)
    (inp : Option ExpiryInput) (es : String)
    (h : normalizeExpiry parse now inp = Except.ok (some es)) :
    ∃ v : Int, es = isoSecondsString v ∧ now < v := by
  have hcheck : ∀ t : Option Int,
      normalizeExpiryCheck now t = Except.ok (some es) →
      ∃ v : Int, es = isoSecondsString v ∧ now < v := by
    intro t ht
    cases t with
    | none =>
        simp only [normalizeExpiryCheck] at ht
        exact absurd ht (by simp)
    | some v =>
        simp only [normalizeExpiryCheck] at ht
        split at ht
        · exact absurd ht (by simp)
        · rename_i hv
          simp only [Except.ok.injEq, Option.some.injEq] at ht
          exact ⟨v, by rw [← ht, jsStripMs_jsToISOString], by omega⟩
  cases inp with
  | none => simp [normalizeExpiry] at h
  | some e =>
      cases e with
      | date t => exact hcheck t h
      | num n => exact hcheck (some n) h
      | str s =>
          simp only [normalizeExpiry] at h
          cases hp : parse s with
          | none => rw [hp] at h; exact absurd h (by simp)
          | some t => rw [hp] at h; exact hcheck (some t) h

theorem isoSecondsString_ascii (t : Int) :
    ∀ b ∈ asciiBytes (isoSecondsString t), b < 256 := by
  intro b hb
  unfold asciiBytes at hb
  rcases List.mem_map.mp hb with ⟨c, hc, rfl⟩
  have hdig : ∀ d : Int, (decDigit d).toNat < 256 := by
    intro d
    rw [decDigit_toNat]
    omega
  simp only [isoSecondsString, String.data] at hc
  rcases List.mem_append.mp hc with h | h
  · unfold isoCoreChars at h
    rcases List.mem_append.mp h with h | h
    rotate_left
    · simp only [List.mem_cons, pad2, List.mem_singleton,
        List.not_mem_nil, or_false] at h
      rcases h with rfl | rfl | rfl
      · decide
      · exact hdig _
      · exact hdig _
    rcases List.mem_append.mp h with h | h
    rotate_left
    · simp only [List.mem_cons, pad2, List.mem_singleton,
        List.not_mem_nil, or_false] at h
      rcases h with rfl | rfl | rfl
      · decide
      · exact hdig _
      · exact hdig _
    rcases List.mem_append.mp h with h | h
    rotate_left
    · simp only [List.mem_cons, pad2, List.mem_singleton,
        List.not_mem_nil, or_false] at h
      rcases h with rfl | rfl | rfl
      · decide
      · exact hdig _
      · exact hdig _
    rcases List.mem_append.mp h with h | h
    rotate_left
    · simp only [List.mem_cons, pad2, List.mem_singleton,
        List.not_mem_nil, or_false] at h
      rcases h with rfl | rfl | rfl
      · decide
      · exact hdig _
      · exact hdig _
    rcases List.mem_append.mp h with h | h
    rotate_left
    · simp only [List.mem_cons, pad2, List.mem_singleton,
        List.not_mem_nil, or_false] at h
      rcases h with rfl | rfl | rfl
      · decide
      · exact hdig _
      · exact hdig _
    · unfold yearChars at h
      split at h
      · simp only [pad4, List.mem_cons, List.mem_singleton,
          List.not_mem_nil, or_false] at h
        rcases h with rfl | rfl | rfl | rfl <;> exact hdig _
      · split at h <;>
        · simp only [pad6, List.mem_cons, List.mem_singleton,
            List.not_mem_nil, or_false] at h
          rcases h with rfl | rfl | rfl | rfl | rfl | rfl | rfl <;>
            first
            | decide
            | exact hdig _
  · simp only [List.mem_singleton] at h
    rw [h]
    decide

theorem urlWithSigningParams_ok (parse : String → Option Int) (now : Int)
    (u : UrlModel) (opts : SigningOptions) (eopt : Option String)
    (hexp : normalizeExpiry parse now opts.expiry = Except.ok eopt) :
    urlWithSigningParams parse now u opts = Except.ok
      ⟨u.base, nonReservedOnly u.params ++ [(keyidName, opts.keyId)] ++
        expiryPart eopt⟩ := by
  cases eopt with
  | none =>
      simp only [urlWithSigningParams, spAppend, spDeleteAll_reserved, hexp,
        expiryPart, List.append_nil]
  | some es =>
      simp only [urlWithSigningParams, spAppend, spDeleteAll_reserved, hexp,
        expiryPart]

theorem signUrl_ok (signFn : List Nat → List Nat)
    (parse : String → Option Int) (now : Int) (u : UrlModel)
    (opts : SigningOptions) (u2 : UrlModel)
    (hu : urlWithSigningParams parse now u opts = Except.ok u2) :
    signUrl signFn parse now u opts = Except.ok
      (urlToString u2 ++ asciiBytes "&signature=" ++
        generateSignature signFn (urlToString u2)) := by
  unfold signUrl
  rw [hu]

theorem setSigningParams_ok (parse : String → Option Int) (now : Int)
    (ps : List (List Nat × List Nat)) (opts : SigningOptions)
    (eopt : Option String)
    (hexp : normalizeExpiry parse now opts.expiry = Except.ok eopt) :
    setSigningParams parse now ps opts = Except.ok
      (setParamsPure ps opts.keyId eopt) := by
  cases eopt with
  | none => simp only [setSigningParams, hexp, setParamsPure]
  | some es => simp only [setSigningParams, hexp, setParamsPure]

theorem signAssetUrl_ok (signFn : List Nat → List Nat)
    (parse : String → Option Int) (now : Int) (u : UrlModel)
    (opts : SigningOptions) (ps2 : List (List Nat × List Nat))
    (hset : setSigningParams parse now u.params opts = Except.ok ps2) :
    signAssetUrl signFn parse now u opts = Except.ok
      (urlToString ⟨u.base, spSet ps2 signatureName
        (generateSignature signFn (urlToString ⟨u.base, ps2⟩))⟩) := by
  unfold signAssetUrl
  rw [hset]

theorem parseQuery_sig_piece (sig : List Nat)
    (hs : ∀ c ∈ sig, c ≠ 43 ∧ c ≠ 37 ∧ c ≠ 38) :
    parseQuery (asciiBytes "signature=" ++ sig) = [(signatureName, sig)] := by
  have heq : asciiBytes "signature=" ++ sig =
      asciiBytes "signature" ++ 61 :: sig := by
    rw [show asciiBytes "signature=" = asciiBytes "signature" ++ [61] by decide]
    simp
  have hname : ∀ c ∈ asciiBytes "signature",
      c ≠ 38 ∧ c ≠ 61 ∧ c ≠ 43 ∧ c ≠ 37 := by decide
  rw [heq]
  unfold parseQuery
  rw [splitAmp_no_sep _ (fun c hc => by
    rcases List.mem_append.mp hc with h | h
    · exact (hname c h).1
    · rcases List.mem_cons.mp h with rfl | h2
      · omega
      · exact (hs c h2).2.2)]
  have hne : (asciiBytes "signature" ++ 61 :: sig).isEmpty = false := by
    simp
  simp only [List.filter_cons, hne, Bool.not_false, if_pos, List.filter_nil,
    List.map_cons, List.map_nil]
  unfold parsePair
  rw [splitEq_append _ _ (fun c hc => (hname c hc).2.1)]
  rw [formDecode_fixed _ (fun c hc => ⟨(hname c hc).2.2.1, (hname c hc).2.2.2⟩),
    formDecode_fixed _ (fun c hc => ⟨(hs c hc).1, (hs c hc).2.1⟩)]
  rfl

theorem reservedOnly_nonReservedOnly (ps : List (List Nat × List Nat)) :
    reservedOnly (nonReservedOnly ps) = [] := by
  apply List.filter_eq_nil_iff.mpr
  intro q hq
  rw [nonReservedOnly_not_reserved ps q hq]
  simp

theorem pairEnc_suffix :
    ∀ ps : List (List Nat × List Nat), ∀ p,
      List.IsSuffix (pairEnc p) (serializeQuery (ps ++ [p]))
  | [], p => by simp [serializeQuery]
  | [q], p => by
      simp only [List.cons_append, List.nil_append, serializeQuery]
      exact ⟨pairEnc q ++ [38], by simp⟩
  | q :: r :: rest, p => by
      have ih := pairEnc_suffix (r :: rest) p
      simp only [List.cons_append, serializeQuery, List.append_eq]
      rcases ih with ⟨pre, hpre⟩
      rw [List.cons_append] at hpre
      exact ⟨pairEnc q ++ 38 :: pre, by rw [← hpre]; simp⟩

theorem formEncode_sig_suffix (ps : List (List Nat × List Nat))
    (sig : List Nat) :
    List.IsSuffix (formEncodeBytes sig)
      (serializeQuery (ps ++ [(signatureName, sig)])) := by
  have h1 := pairEnc_suffix ps (signatureName, sig)
  have h2 : List.IsSuffix (formEncodeBytes sig)
      (pairEnc (signatureName, sig)) := by
    unfold pairEnc
    exact ⟨formEncodeBytes signatureName ++ [61], by simp⟩
  exact h2.trans h1

theorem isSuffix_urlToString (u : UrlModel) (x : List Nat)
    (hx : List.IsSuffix x (serializeQuery u.params))
    (hne : u.params.isEmpty = false) :
    List.IsSuffix x (urlToString u) := by
  unfold urlToString
  rw [hne]
  simp only [Bool.false_eq_true, if_false]
  rcases hx with ⟨pre, hpre⟩
  exact ⟨u.base ++ 63 :: pre, by rw [← hpre]; simp⟩

theorem urlWithSigningParams_error (parse : String → Option Int) (now : Int)
    (u : UrlModel) (opts : SigningOptions) (e : String)
    (hexp : normalizeExpiry parse now opts.expiry = Except.error e) :
    urlWithSigningParams parse now u opts = Except.error e := by
  simp only [urlWithSigningParams, hexp]

/-! ### Claim theorems. -/

/-- C3: Mode A (`signUrl`) removes any existing `keyid`, `expiry`, and
`signature` parameters, appends `keyid` then (if present) the normalized
expiry through the URL object's parameter list, signs the resulting full URL
string, and returns that string with the signature concatenated as
`&signature=<sig>`; this is proven as an equality with `signUrlSpec`, the
step-by-step restatement of the spec's Mode A sentence. -/
theorem C3_signUrl_mode_a (signFn : List Nat → List Nat)
    (parse : String → Option Int) (now : Int) (u : UrlModel)
    (opts : SigningOptions) :
    signUrl signFn parse now u opts = signUrlSpec signFn parse now u opts := by
  cases hexp : normalizeExpiry parse now opts.expiry with
  | error e =>
      unfold signUrl
      rw [urlWithSigningParams_error parse now u opts e hexp]
      simp only [signUrlSpec, hexp]
  | ok eopt =>
      rw [signUrl_ok signFn parse now u opts _
        (urlWithSigningParams_ok parse now u opts eopt hexp)]
      cases eopt with
      | none =>
          simp only [signUrlSpec, hexp, expiryPart, nonReservedOnly,
            List.append_nil]
      | some es =>
          simp only [signUrlSpec, hexp, expiryPart, nonReservedOnly]

/-- C5: for every expiry input that parses to an instant, `normalizeExpiry`
raises the future error exactly when the instant is at or before the current
time (so an instant equal to now is rejected and one a millisecond later is
accepted), and an absent expiry yields no output and no error. -/
theorem C5_expiry_future_boundary (parse : String → Option Int) (now : Int)
    (inp : ExpiryInput) (t : Int)
    (hp : parsedInstantOf parse inp = some t) :
    (normalizeExpiry parse now (some inp) = Except.error futureMsg ↔
      t ≤ now) ∧
    normalizeExpiry parse now none = Except.ok none := by
  refine ⟨?_, rfl⟩
  have hcheck : normalizeExpiryCheck now (some t) = Except.error futureMsg ↔
      t ≤ now := by
    simp only [normalizeExpiryCheck]
    by_cases h : t ≤ now
    · simp [h]
    · simp [h]
  cases inp with
  | date topt =>
      simp only [parsedInstantOf] at hp
      rw [hp] at *
      exact hcheck
  | num n =>
      simp only [parsedInstantOf, Option.some.injEq] at hp
      rw [hp] at *
      exact hcheck
  | str s =>
      simp only [parsedInstantOf] at hp
      simp only [normalizeExpiry, hp]
      exact hcheck

/-- C5 witness: at a mocked clock, an instant one millisecond after now is
accepted, an instant equal to now is rejected, and an absent expiry passes
through. -/
theorem C5_witness :
    (normalizeExpiry (fun _ => none) 0 (some (ExpiryInput.num 1)) ≠
      Except.error futureMsg) ∧
    normalizeExpiry (fun _ => none) 0 (some (ExpiryInput.num 0)) =
      Except.error futureMsg ∧
    normalizeExpiry (fun _ => none) 0 none = Except.ok none := by
  have h1 := C5_expiry_future_boundary (fun _ => none) 0 (ExpiryInput.num 1) 1
    rfl
  have h0 := C5_expiry_future_boundary (fun _ => none) 0 (ExpiryInput.num 0) 0
    rfl
  exact ⟨fun hc => absurd (h1.1.mp hc) (by omega), h0.1.mpr (by omega), h1.2⟩

/-- C6: for every accepted expiry input, the output is the UTC rendering of
the parsed instant truncated (not rounded) to whole seconds with a trailing
marker, in the shape YYYY-MM-DDTHH:MM:SSZ for instants within the four-digit
year range; and a string the date parser rejects fails with the invalid
format error. -/
theorem C6_expiry_rendering (parse : String → Option Int) (now : Int)
    (inp : ExpiryInput) (es : String) (t : Int)
    (hp : parsedInstantOf parse inp = some t)
    (hok : normalizeExpiry parse now (some inp) = Except.ok (some es)) :
    es = isoSecondsString t ∧
    (∀ t2 : Int, t / 1000 = t2 / 1000 →
      isoSecondsString t = isoSecondsString t2) ∧
    (0 ≤ t → t < isoMaxMs → isIsoBasicFormat es = true) ∧
    (∀ s, parse s = none →
      normalizeExpiry parse now (some (ExpiryInput.str s)) =
        Except.error invalidFormatMsg) := by
  have hcheck : ∀ r : Option Int,
      normalizeExpiryCheck now r = Except.ok (some es) → r = some t →
      es = isoSecondsString t := by
    intro r hr hrt
    subst hrt
    simp only [normalizeExpiryCheck] at hr
    split at hr
    · exact absurd hr (by simp)
    · simp only [Except.ok.injEq, Option.some.injEq] at hr
      rw [← hr, jsStripMs_jsToISOString]
  have hes : es = isoSecondsString t := by
    cases inp with
    | date topt =>
        simp only [parsedInstantOf] at hp
        exact hcheck topt hok hp
    | num n =>
        simp only [parsedInstantOf, Option.some.injEq] at hp
        exact hcheck (some n) hok (by rw [hp])
    | str s =>
        simp only [parsedInstantOf] at hp
        simp only [normalizeExpiry, hp] at hok
        exact hcheck (some t) hok rfl
  refine ⟨hes, fun t2 h => isoSecondsString_congr t t2 h, ?_, ?_⟩
  · intro h0 h1
    rw [hes]
    exact isoSecondsString_format t h0 h1
  · intro s hs
    simp only [normalizeExpiry, hs]

/-- C6 witness: a concrete accepted instant with a sub-second component
renders truncated to whole seconds in the basic ISO shape. -/
theorem C6_witness :
    "2023-11-14T22:13:20Z" = isoSecondsString 1700000000123 ∧
    isIsoBasicFormat "2023-11-14T22:13:20Z" = true := by
  have h := C6_expiry_rendering (fun _ => none) 0
    (ExpiryInput.num 1700000000123) "2023-11-14T22:13:20Z" 1700000000123
    rfl rfl
  exact ⟨h.1, h.2.2.1 (by decide) (by decide)⟩

/-- C10: a `Date` object with an invalid (NaN) time value passes both the
format check (which applies only to number and string inputs) and the
not-in-the-future comparison (false against NaN), and the call fails only at
ISO formatting with the RangeError message, which is neither of the two
`normalizeExpiry` errors. -/
theorem C10_invalid_date_object (parse : String → Option Int) (now : Int) :
    normalizeExpiry parse now (some (ExpiryInput.date none)) =
      Except.error invalidTimeMsg ∧
    invalidTimeMsg ≠ invalidFormatMsg ∧ invalidTimeMsg ≠ futureMsg :=
  ⟨rfl, by decide, by decide⟩

/-- C9: decoding the base64url encoding returns the original byte sequence,
and the five-byte input 72,101,108,108,111 encodes to SGVsbG8= with its
padding kept and the URL-safe alphabet. -/
theorem C9_base64url_roundtrip :
    (∀ bs : List Nat, (∀ b ∈ bs, b < 256) →
      base64ToBytes (toBase64UrlWithPadding bs) = bs) ∧
    toBase64UrlWithPadding [72, 101, 108, 108, 111] = asciiBytes "SGVsbG8=" :=
  ⟨fun bs h => base64_roundtrip bs h, by decide⟩

/-- C9 witness: round trips at the lengths named by the spec, including a
64-byte signature-sized input. -/
theorem C9_witness :
    base64ToBytes (toBase64UrlWithPadding []) = [] ∧
    base64ToBytes (toBase64UrlWithPadding [250]) = [250] ∧
    base64ToBytes (toBase64UrlWithPadding [1, 2]) = [1, 2] ∧
    base64ToBytes (toBase64UrlWithPadding [1, 2, 3]) = [1, 2, 3] ∧
    base64ToBytes (toBase64UrlWithPadding [1, 2, 3, 4]) = [1, 2, 3, 4] ∧
    base64ToBytes (toBase64UrlWithPadding (List.replicate 64 7)) =
      List.replicate 64 7 :=
  ⟨C9_base64url_roundtrip.1 [] (by decide),
   C9_base64url_roundtrip.1 [250] (by decide),
   C9_base64url_roundtrip.1 [1, 2] (by decide),
   C9_base64url_roundtrip.1 [1, 2, 3] (by decide),
   C9_base64url_roundtrip.1 [1, 2, 3, 4] (by decide),
   C9_base64url_roundtrip.1 (List.replicate 64 7) (by decide)⟩

theorem getLast_filter_range_some (p : Nat → Bool) :
    ∀ n i : Nat, (((List.range n).filter p).getLast? = some i ↔
      (i < n ∧ p i = true ∧ ∀ j, j < n → p j = true → j ≤ i)) := by
  intro n
  induction n with
  | zero =>
      intro i
      simp [List.range_zero]
  | succ n ih =>
      intro i
      rw [List.range_succ, List.filter_append]
      cases hp : p n with
      | true =>
          rw [show List.filter p [n] = [n] by simp [hp], List.getLast?_concat]
          constructor
          · intro h
            have hni : n = i := by simpa using h
            subst hni
            exact ⟨Nat.lt_succ_self n, hp, fun j hj _ => by omega⟩
          · rintro ⟨hi, hpi, hmax⟩
            have h1 : n ≤ i := hmax n (Nat.lt_succ_self n) hp
            have h2 : i = n := by omega
            simp [h2]
      | false =>
          rw [show List.filter p [n] = [] by simp [hp], List.append_nil, ih i]
          constructor
          · rintro ⟨hi, hpi, hmax⟩
            refine ⟨by omega, hpi, fun j hj hpj => ?_⟩
            rcases Nat.lt_succ_iff_lt_or_eq.mp hj with h2 | rfl
            · exact hmax j h2 hpj
            · rw [hpj] at hp
              cases hp
          · rintro ⟨hi, hpi, hmax⟩
            have hin : i ≠ n := by
              intro hc
              rw [hc] at hpi
              rw [hpi] at hp
              cases hp
            exact ⟨by omega, hpi, fun j hj hpj => hmax j (by omega) hpj⟩

theorem getLast_filter_range_none (p : Nat → Bool) (n : Nat) :
    (((List.range n).filter p).getLast? = none ↔
      ∀ j, j < n → p j = false) := by
  rw [List.getLast?_eq_none_iff, List.filter_eq_nil_iff]
  constructor
  · intro h j hj
    have := h j (List.mem_range.mpr hj)
    simpa using this
  · intro h j hj
    have := h j (List.mem_range.mp hj)
    simp [this]

theorem isSeedMatch_oob (buf : List Nat) (j : Nat) (h : buf.length < j + 34) :
    isSeedMatch buf j = false := by
  unfold isSeedMatch
  rw [decide_eq_false (by omega)]
  simp

theorem isSeedMatch_lt (buf : List Nat) (j : Nat)
    (h : isSeedMatch buf j = true) : j < buf.length := by
  unfold isSeedMatch at h
  simp only [Bool.and_eq_true, decide_eq_true_eq] at h
  omega

/-- C4: DER seed extraction returns the 32 bytes following the last position
at which a 0x04 tag byte is immediately followed by a 0x20 length byte with
at least 32 bytes remaining, and fails with the seed-not-found error exactly
when no such position exists (in particular on empty and too-short buffers);
a sole qualifying position, whatever its 32 bytes hold, is returned exactly. -/
theorem C4_seed_extraction (buf S : List Nat) :
    (ed25519SeedFromPkcs8 buf = Except.ok S ↔
      ∃ i, isSeedMatch buf i = true ∧
        (∀ j, isSeedMatch buf j = true → j ≤ i) ∧ S = seedSlice buf i) ∧
    (ed25519SeedFromPkcs8 buf = Except.error seedNotFoundMsg ↔
      ∀ j, isSeedMatch buf j = false) := by
  unfold ed25519SeedFromPkcs8
  cases hlast : ((List.range buf.length).filter (isSeedMatch buf)).getLast?
  case some i =>
    have hchar := (getLast_filter_range_some (isSeedMatch buf) buf.length i).mp
      hlast
    constructor
    · constructor
      · intro h
        simp only [Except.ok.injEq] at h
        refine ⟨i, hchar.2.1, fun j hj => ?_, h.symm⟩
        exact hchar.2.2 j (isSeedMatch_lt buf j hj) hj
      · rintro ⟨i2, hm, hmax, rfl⟩
        have h1 : i ≤ i2 := hmax i hchar.2.1
        have h2 : i2 ≤ i := hchar.2.2 i2 (isSeedMatch_lt buf i2 hm) hm
        have : i = i2 := by omega
        rw [this]
    · constructor
      · intro h
        cases h
      · intro hall
        rw [hall i] at hchar
        exact absurd hchar.2.1 (by simp)
  case none =>
    have hnone := (getLast_filter_range_none (isSeedMatch buf)
      buf.length).mp hlast
    have hall : ∀ j, isSeedMatch buf j = false := by
      intro j
      by_cases hj : j < buf.length
      · exact hnone j hj
      · exact isSeedMatch_oob buf j (by omega)
    constructor
    · constructor
      · intro h
        cases h
      · rintro ⟨i2, hm, -, -⟩
        rw [hall i2] at hm
        cases hm
    · simp [hall]

/-- A `searchParams.set` on slot `b` leaves every other slot unread. -/
theorem storeSetParam_getElem_ne (st : List UrlModel) (b i : Nat)
    (name v : List Nat) (h : i ≠ b) :
    (storeSetParam st b name v)[i]? = st[i]? := by
  unfold storeSetParam
  exact List.getElem?_set_ne (fun hc => h hc.symm)

/-- C8: Mode B (`signAssetUrl`) never mutates a caller-supplied URL object:
every slot of the store that existed before the call holds the same URL
object afterwards, and in particular the string form of the argument URL is
identical before and after; the operation works on a private copy appended
to the store. -/
theorem C8_mode_b_no_mutation (signFn : List Nat → List Nat)
    (parse : String → Option Int) (now : Int) (st : List UrlModel) (r : Nat)
    (opts : SigningOptions) (st2 : List UrlModel) (out : List Nat)
    (hr : r < st.length)
    (hok : signAssetUrlSt signFn parse now st r opts =
      Except.ok (st2, out)) :
    (∀ i, i < st.length → st2[i]? = st[i]?) ∧
    urlToString (storeGet st2 r) = urlToString (storeGet st r) := by
  have hpres : ∀ (su : List UrlModel) (name v : List Nat),
      (∀ i, i < st.length → su[i]? = st[i]?) →
      (∀ i, i < st.length →
        (storeSetParam su st.length name v)[i]? = st[i]?) := by
    intro su name v hsu i hi
    rw [storeSetParam_getElem_ne su st.length i name v (by omega)]
    exact hsu i hi
  have hfirst : ∀ i, i < st.length →
      (st ++ [storeGet st r])[i]? = st[i]? := by
    intro i hi
    exact List.getElem?_append_left hi
  have hfin : ∀ i, i < st.length → st2[i]? = st[i]? := by
    cases hexp : normalizeExpiry parse now opts.expiry with
    | error e =>
        simp only [signAssetUrlSt, hexp] at hok
        cases hok
    | ok eopt =>
        cases eopt with
        | none =>
            simp only [signAssetUrlSt, hexp, Except.ok.injEq,
              Prod.mk.injEq] at hok
            obtain ⟨h1, -⟩ := hok
            intro i hi
            rw [← h1]
            exact hpres _ _ _ (hpres _ _ _ hfirst) i hi
        | some es =>
            simp only [signAssetUrlSt, hexp, Except.ok.injEq,
              Prod.mk.injEq] at hok
            obtain ⟨h1, -⟩ := hok
            intro i hi
            rw [← h1]
            exact hpres _ _ _ (hpres _ _ _ (hpres _ _ _ hfirst)) i hi
  refine ⟨hfin, ?_⟩
  have hg : st2[r]? = st[r]? := hfin r hr
  simp only [storeGet, List.getD_eq_getElem?_getD, hg]

/-- Witness for C8 at a concrete store holding one URL object. -/
theorem C8_witness :
    (∀ i, i < 1 →
      ([⟨asciiBytes "https://h/p", []⟩,
        ⟨asciiBytes "https://h/p",
          [(keyidName, asciiBytes "k"), (signatureName, [])]⟩] :
        List UrlModel)[i]? =
      ([⟨asciiBytes "https://h/p", []⟩] : List UrlModel)[i]?) ∧
    urlToString (storeGet
      [⟨asciiBytes "https://h/p", []⟩,
       ⟨asciiBytes "https://h/p",
         [(keyidName, asciiBytes "k"), (signatureName, [])]⟩] 0) =
    urlToString (storeGet [⟨asciiBytes "https://h/p", []⟩] 0) :=
  C8_mode_b_no_mutation (fun _ => []) (fun _ => none) 0
    [⟨asciiBytes "https://h/p", []⟩] 0 ⟨asciiBytes "k", none⟩
    [⟨asciiBytes "https://h/p", []⟩,
     ⟨asciiBytes "https://h/p",
       [(keyidName, asciiBytes "k"), (signatureName, [])]⟩]
    (asciiBytes "https://h/p?keyid=k&signature=")
    (by decide) (by rfl)

/-- Serializing a nonempty parameter list always renders a question mark and
the urlencoded query. -/
theorem urlToString_of_ne_nil (base : List Nat)
    (A : List (List Nat × List Nat)) (hA : A ≠ []) :
    urlToString ⟨base, A⟩ = base ++ 63 :: serializeQuery A := by
  simp only [urlToString, List.isEmpty_iff]
  rw [if_neg hA]

/-- With a fixed pre-query part, the URL string determines the parameter
list (for byte-valued parameters). -/
theorem urlToString_inj_params (base : List Nat)
    (A B : List (List Nat × List Nat)) (hwA : WfParams A) (hwB : WfParams B)
    (hA : A ≠ []) (hB : B ≠ [])
    (h : urlToString ⟨base, A⟩ = urlToString ⟨base, B⟩) : A = B := by
  rw [urlToString_of_ne_nil base A hA, urlToString_of_ne_nil base B hB] at h
  have h2 := List.append_cancel_left h
  simp only [List.cons.injEq, true_and] at h2
  have h4 := congrArg parseQuery h2
  rw [parseQuery_serialize A hwA, parseQuery_serialize B hwB] at h4
  exact h4

/-- The base64url rendering is injective on byte lists. -/
theorem toBase64UrlWithPadding_inj (xs ys : List Nat)
    (hx : ∀ b ∈ xs, b < 256) (hy : ∀ b ∈ ys, b < 256)
    (h : toBase64UrlWithPadding xs = toBase64UrlWithPadding ys) : xs = ys := by
  have h2 := congrArg base64ToBytes h
  rw [base64_roundtrip xs hx, base64_roundtrip ys hy] at h2
  exact h2

/-- C7: in Mode A, two URLs that differ only in the ordering of their
non-reserved query parameters produce different signatures whenever the
signing primitive is injective: the string-to-sign keeps the original
parameter order (the cleaned pairs in input order, then `keyid`, then the
normalized expiry), the two strings-to-sign differ, and hence so do the two
base64url signatures. -/
theorem C7_mode_a_order_sensitivity (signFn : List Nat → List Nat)
    (parse : String → Option Int) (now : Int) (base : List Nat)
    (p1 p2 : List (List Nat × List Nat)) (opts : SigningOptions)
    (eopt : Option String)
    (hexp : normalizeExpiry parse now opts.expiry = Except.ok eopt)
    (hbase : ∀ b ∈ base, b < 256 ∧ b ≠ 63)
    (hwf1 : WfParams p1) (hwf2 : WfParams p2)
    (hfree1 : ∀ q ∈ p1, reservedNames.contains q.1 = false)
    (hfree2 : ∀ q ∈ p2, reservedNames.contains q.1 = false)
    (hne : p1 ≠ p2) (hkey : ∀ b ∈ opts.keyId, b < 256)
    (hinj : Function.Injective signFn)
    (hbytes : ∀ m, (∀ b ∈ m, b < 256) → ∀ b ∈ signFn m, b < 256) :
    signUrl signFn parse now ⟨base, p1⟩ opts = Except.ok
      (urlToString ⟨base, p1 ++ [(keyidName, opts.keyId)] ++ expiryPart eopt⟩
        ++ asciiBytes "&signature=" ++ generateSignature signFn
          (urlToString
            ⟨base, p1 ++ [(keyidName, opts.keyId)] ++ expiryPart eopt⟩)) ∧
    signUrl signFn parse now ⟨base, p2⟩ opts = Except.ok
      (urlToString ⟨base, p2 ++ [(keyidName, opts.keyId)] ++ expiryPart eopt⟩
        ++ asciiBytes "&signature=" ++ generateSignature signFn
          (urlToString
            ⟨base, p2 ++ [(keyidName, opts.keyId)] ++ expiryPart eopt⟩)) ∧
    urlToString ⟨base, p1 ++ [(keyidName, opts.keyId)] ++ expiryPart eopt⟩ ≠
      urlToString ⟨base, p2 ++ [(keyidName, opts.keyId)] ++ expiryPart eopt⟩ ∧
    generateSignature signFn
        (urlToString
          ⟨base, p1 ++ [(keyidName, opts.keyId)] ++ expiryPart eopt⟩) ≠
      generateSignature signFn
        (urlToString
          ⟨base, p2 ++ [(keyidName, opts.keyId)] ++ expiryPart eopt⟩) := by
  have hself1 : nonReservedOnly p1 = p1 := by
    unfold nonReservedOnly
    exact List.filter_eq_self.mpr (fun q hq => by rw [hfree1 q hq]; rfl)
  have hself2 : nonReservedOnly p2 = p2 := by
    unfold nonReservedOnly
    exact List.filter_eq_self.mpr (fun q hq => by rw [hfree2 q hq]; rfl)
  have hu1 := urlWithSigningParams_ok parse now ⟨base, p1⟩ opts eopt hexp
  have hu2 := urlWithSigningParams_ok parse now ⟨base, p2⟩ opts eopt hexp
  simp only [hself1] at hu1
  simp only [hself2] at hu2
  have hs1 := signUrl_ok signFn parse now ⟨base, p1⟩ opts _ hu1
  have hs2 := signUrl_ok signFn parse now ⟨base, p2⟩ opts _ hu2
  have hwfk : WfParams [(keyidName, opts.keyId)] := by
    intro q hq
    rw [List.mem_singleton.mp hq]
    exact ⟨show ∀ b ∈ keyidName, b < 256 by decide, hkey⟩
  have hwfe : WfParams (expiryPart eopt) := by
    cases eopt with
    | none =>
        intro q hq
        simp [expiryPart] at hq
    | some es =>
        obtain ⟨v, hv, -⟩ := normalizeExpiry_ok_some parse now opts.expiry es hexp
        intro q hq
        simp only [expiryPart, List.mem_singleton] at hq
        subst hq
        constructor
        · exact show ∀ b ∈ expiryName, b < 256 by decide
        · show ∀ b ∈ asciiBytes es, b < 256
          rw [hv]
          exact isoSecondsString_ascii v
  have hwfA1 : WfParams (p1 ++ [(keyidName, opts.keyId)] ++ expiryPart eopt) :=
    wfParams_append _ _ (wfParams_append _ _ hwf1 hwfk) hwfe
  have hwfA2 : WfParams (p2 ++ [(keyidName, opts.keyId)] ++ expiryPart eopt) :=
    wfParams_append _ _ (wfParams_append _ _ hwf2 hwfk) hwfe
  have hA1ne : p1 ++ [(keyidName, opts.keyId)] ++ expiryPart eopt ≠ [] := by
    simp [List.append_eq_nil]
  have hA2ne : p2 ++ [(keyidName, opts.keyId)] ++ expiryPart eopt ≠ [] := by
    simp [List.append_eq_nil]
  have hAne : p1 ++ [(keyidName, opts.keyId)] ++ expiryPart eopt ≠
      p2 ++ [(keyidName, opts.keyId)] ++ expiryPart eopt := by
    intro h
    exact hne (List.append_cancel_right (List.append_cancel_right h))
  have hstr_ne : urlToString
      ⟨base, p1 ++ [(keyidName, opts.keyId)] ++ expiryPart eopt⟩ ≠
      urlToString
        ⟨base, p2 ++ [(keyidName, opts.keyId)] ++ expiryPart eopt⟩ := by
    intro h
    exact hAne (urlToString_inj_params base _ _ hwfA1 hwfA2 hA1ne hA2ne h)
  have hsig_ne : generateSignature signFn
      (urlToString
        ⟨base, p1 ++ [(keyidName, opts.keyId)] ++ expiryPart eopt⟩) ≠
      generateSignature signFn
        (urlToString
          ⟨base, p2 ++ [(keyidName, opts.keyId)] ++ expiryPart eopt⟩) := by
    intro h
    apply hstr_ne
    apply hinj
    refine toBase64UrlWithPadding_inj _ _
      (hbytes _ (urlToString_byte _ ⟨hbase, hwfA1⟩))
      (hbytes _ (urlToString_byte _ ⟨hbase, hwfA2⟩)) ?_
    exact h
  exact ⟨hs1, hs2, hstr_ne, hsig_ne⟩

/-- Witness for C7: the identity signing primitive, an absent expiry, and
the query pair lists a=1,b=2 versus b=2,a=1. -/
theorem C7_witness :
    signUrl (fun m => m) (fun _ => none) 0
      ⟨asciiBytes "https://h/p",
        [(asciiBytes "a", asciiBytes "1"), (asciiBytes "b", asciiBytes "2")]⟩
      ⟨asciiBytes "k", none⟩ = Except.ok
      (urlToString ⟨asciiBytes "https://h/p",
          [(asciiBytes "a", asciiBytes "1"), (asciiBytes "b", asciiBytes "2")]
            ++ [(keyidName, asciiBytes "k")] ++ expiryPart none⟩
        ++ asciiBytes "&signature=" ++ generateSignature (fun m => m)
          (urlToString ⟨asciiBytes "https://h/p",
            [(asciiBytes "a", asciiBytes "1"),
             (asciiBytes "b", asciiBytes "2")]
              ++ [(keyidName, asciiBytes "k")] ++ expiryPart none⟩)) ∧
    signUrl (fun m => m) (fun _ => none) 0
      ⟨asciiBytes "https://h/p",
        [(asciiBytes "b", asciiBytes "2"), (asciiBytes "a", asciiBytes "1")]⟩
      ⟨asciiBytes "k", none⟩ = Except.ok
      (urlToString ⟨asciiBytes "https://h/p",
          [(asciiBytes "b", asciiBytes "2"), (asciiBytes "a", asciiBytes "1")]
            ++ [(keyidName, asciiBytes "k")] ++ expiryPart none⟩
        ++ asciiBytes "&signature=" ++ generateSignature (fun m => m)
          (urlToString ⟨asciiBytes "https://h/p",
            [(asciiBytes "b", asciiBytes "2"),
             (asciiBytes "a", asciiBytes "1")]
              ++ [(keyidName, asciiBytes "k")] ++ expiryPart none⟩)) ∧
    urlToString ⟨asciiBytes "https://h/p",
        [(asciiBytes "a", asciiBytes "1"), (asciiBytes "b", asciiBytes "2")]
          ++ [(keyidName, asciiBytes "k")] ++ expiryPart none⟩ ≠
      urlToString ⟨asciiBytes "https://h/p",
        [(asciiBytes "b", asciiBytes "2"), (asciiBytes "a", asciiBytes "1")]
          ++ [(keyidName, asciiBytes "k")] ++ expiryPart none⟩ ∧
    generateSignature (fun m => m)
        (urlToString ⟨asciiBytes "https://h/p",
          [(asciiBytes "a", asciiBytes "1"), (asciiBytes "b", asciiBytes "2")]
            ++ [(keyidName, asciiBytes "k")] ++ expiryPart none⟩) ≠
      generateSignature (fun m => m)
        (urlToString ⟨asciiBytes "https://h/p",
          [(asciiBytes "b", asciiBytes "2"), (asciiBytes "a", asciiBytes "1")]
            ++ [(keyidName, asciiBytes "k")] ++ expiryPart none⟩) :=
  C7_mode_a_order_sensitivity (fun m => m) (fun _ => none) 0
    (asciiBytes "https://h/p")
    [(asciiBytes "a", asciiBytes "1"), (asciiBytes "b", asciiBytes "2")]
    [(asciiBytes "b", asciiBytes "2"), (asciiBytes "a", asciiBytes "1")]
    ⟨asciiBytes "k", none⟩ none rfl (by decide) (by decide) (by decide)
    (by decide) (by decide) (by decide) (by decide) (fun a b h => h)
    (fun m h => h)

set_option maxRecDepth 10000 in
/-- C1 counterexample: two Mode B failures of the claimed invariant.  First,
the signature value does not appear in the output as produced: signing
https://h/p with key id k, no expiry, and a 64-zero-byte signing primitive
yields the base64url signature of 86 letters A followed by two padding
equals signs, but the output URL percent-encodes that padding as %3D%3D, so
the signature value as produced occurs nowhere in the output.  Second, the
fixed reserved-parameter order fails when the input URL already carries a
reserved parameter: signing https://h/p?signature=x leaves the overwritten
signature parameter in its original position, ahead of keyid. -/
theorem C1_counterexample :
    toBase64UrlWithPadding (List.replicate 64 0) =
      asciiBytes "AAAAAAAAAAAAAAAAAAAAAAAAAAAAAAAAAAAAAAAAAAAAAAAAAAAAAAAAAAAAAAAAAAAAAAAAAAAAAAAAAAAAAA==" ∧
    signAssetUrl (fun _ => List.replicate 64 0) (fun _ => none) 0
      ⟨asciiBytes "https://h/p", []⟩ ⟨asciiBytes "k", none⟩ = Except.ok
      (asciiBytes
        "https://h/p?keyid=k&signature=AAAAAAAAAAAAAAAAAAAAAAAAAAAAAAAAAAAAAAAAAAAAAAAAAAAAAAAAAAAAAAAAAAAAAAAAAAAAAAAAAAAAAA%3D%3D") ∧
    ¬ List.IsInfix (toBase64UrlWithPadding (List.replicate 64 0))
      (asciiBytes
        "https://h/p?keyid=k&signature=AAAAAAAAAAAAAAAAAAAAAAAAAAAAAAAAAAAAAAAAAAAAAAAAAAAAAAAAAAAAAAAAAAAAAAAAAAAAAAAAAAAAAA%3D%3D") ∧
    modeBParams (fun _ => []) (asciiBytes "https://h/p")
        [(signatureName, asciiBytes "x")] (asciiBytes "k") none =
      [(signatureName, []), (keyidName, asciiBytes "k")] ∧
    signAssetUrl (fun _ => []) (fun _ => none) 0
      ⟨asciiBytes "https://h/p", [(signatureName, asciiBytes "x")]⟩
      ⟨asciiBytes "k", none⟩ = Except.ok
      (asciiBytes "https://h/p?signature=&keyid=k") :=
  ⟨by decide, by rfl, by decide, by decide, by rfl⟩

/-- C1 (amended): for every input URL, in Mode A the output URL carries its
reserved parameters in the order keyid, expiry (if present), signature, each
exactly once, and the base64url signature is appended verbatim as a raw
suffix; in Mode B each of keyid, signature, and (when present) expiry is set
exactly once, so no reserved name is duplicated, but the fixed order holds
only when the input carries no reserved parameter, and the signature value
passes through the urlencoded serializer, so the output ends in its
percent-encoded form (padding as %3D) rather than the value as produced. -/
theorem C1_reserved_params (signFn : List Nat → List Nat)
    (parse : String → Option Int) (now : Int) (base : List Nat)
    (ps : List (List Nat × List Nat)) (opts : SigningOptions)
    (eopt : Option String)
    (hexp : normalizeExpiry parse now opts.expiry = Except.ok eopt)
    (hbase : ∀ b ∈ base, b < 256 ∧ b ≠ 63) (hwf : WfParams ps)
    (hkey : ∀ b ∈ opts.keyId, b < 256) :
    signUrl signFn parse now ⟨base, ps⟩ opts =
      Except.ok (modeAOut signFn base ps opts.keyId eopt) ∧
    reservedOnly (parseQuery (queryOf
        (modeAOut signFn base ps opts.keyId eopt))) =
      [(keyidName, opts.keyId)] ++ expiryPart eopt ++
        [(signatureName, generateSignature signFn
          (urlToString (modeAUrl base ps opts.keyId eopt)))] ∧
    List.IsSuffix
      (generateSignature signFn
        (urlToString (modeAUrl base ps opts.keyId eopt)))
      (modeAOut signFn base ps opts.keyId eopt) ∧
    countName (modeBParams signFn base ps opts.keyId eopt) keyidName = 1 ∧
    countName (modeBParams signFn base ps opts.keyId eopt) signatureName
      = 1 ∧
    (∀ es, eopt = some es →
      countName (modeBParams signFn base ps opts.keyId eopt) expiryName
        = 1) ∧
    signAssetUrl signFn parse now ⟨base, ps⟩ opts = Except.ok
      (urlToString ⟨base, modeBParams signFn base ps opts.keyId eopt⟩) ∧
    ((∀ q ∈ ps, reservedNames.contains q.1 = false) →
      modeBParams signFn base ps opts.keyId eopt =
        ps ++ [(keyidName, opts.keyId)] ++ expiryPart eopt ++
          [(signatureName, modeBSig signFn base ps opts.keyId eopt)] ∧
      List.IsSuffix
        (formEncodeBytes (modeBSig signFn base ps opts.keyId eopt))
        (urlToString
          ⟨base, modeBParams signFn base ps opts.keyId eopt⟩)) := by
  have hwfk : WfParams [(keyidName, opts.keyId)] := by
    intro q hq
    rw [List.mem_singleton.mp hq]
    exact ⟨show ∀ b ∈ keyidName, b < 256 by decide, hkey⟩
  have hwfe : WfParams (expiryPart eopt) := by
    cases eopt with
    | none =>
        intro q hq
        simp [expiryPart] at hq
    | some es =>
        obtain ⟨v, hv, -⟩ :=
          normalizeExpiry_ok_some parse now opts.expiry es hexp
        intro q hq
        simp only [expiryPart, List.mem_singleton] at hq
        subst hq
        constructor
        · exact show ∀ b ∈ expiryName, b < 256 by decide
        · show ∀ b ∈ asciiBytes es, b < 256
          rw [hv]
          exact isoSecondsString_ascii v
  have hwfA1 : WfParams (nonReservedOnly ps ++ [(keyidName, opts.keyId)] ++
      expiryPart eopt) :=
    wfParams_append _ _
      (wfParams_append _ _ (wfParams_nonReservedOnly ps hwf) hwfk) hwfe
  have hA1ne : nonReservedOnly ps ++ [(keyidName, opts.keyId)] ++
      expiryPart eopt ≠ [] := by
    simp [List.append_eq_nil]
  have hu := urlWithSigningParams_ok parse now ⟨base, ps⟩ opts eopt hexp
  have hs1 := signUrl_ok signFn parse now ⟨base, ps⟩ opts _ hu
  have hsigfacts := b64url_member_facts
    (signFn (urlToString (modeAUrl base ps opts.keyId eopt)))
  have hb : reservedOnly (parseQuery (queryOf
      (urlToString ⟨base, nonReservedOnly ps ++ [(keyidName, opts.keyId)] ++
          expiryPart eopt⟩ ++ asciiBytes "&signature=" ++
        generateSignature signFn
          (urlToString ⟨base, nonReservedOnly ps ++
            [(keyidName, opts.keyId)] ++ expiryPart eopt⟩)))) =
      [(keyidName, opts.keyId)] ++ expiryPart eopt ++
        [(signatureName, generateSignature signFn
          (urlToString ⟨base, nonReservedOnly ps ++
            [(keyidName, opts.keyId)] ++ expiryPart eopt⟩))] := by
    have harr : urlToString ⟨base, nonReservedOnly ps ++
          [(keyidName, opts.keyId)] ++ expiryPart eopt⟩ ++
          asciiBytes "&signature=" ++ generateSignature signFn
            (urlToString ⟨base, nonReservedOnly ps ++
              [(keyidName, opts.keyId)] ++ expiryPart eopt⟩) =
        base ++ 63 :: (serializeQuery (nonReservedOnly ps ++
            [(keyidName, opts.keyId)] ++ expiryPart eopt) ++
          38 :: (asciiBytes "signature=" ++ generateSignature signFn
            (urlToString ⟨base, nonReservedOnly ps ++
              [(keyidName, opts.keyId)] ++ expiryPart eopt⟩))) := by
      nth_rewrite 1 [urlToString_of_ne_nil base _ hA1ne]
      rw [show asciiBytes "&signature=" = 38 :: asciiBytes "signature=" from
        by decide]
      simp only [List.append_assoc, List.cons_append]
    rw [harr, queryOf_append base _ (fun b hb2 => (hbase b hb2).2)]
    rw [parseQuery_serialize_append _ _ hwfA1]
    rw [parseQuery_sig_piece (generateSignature signFn
        (urlToString ⟨base, nonReservedOnly ps ++ [(keyidName, opts.keyId)] ++
          expiryPart eopt⟩))
      (fun c hc =>
        ⟨(hsigfacts c hc).2.1, (hsigfacts c hc).2.2.1,
         (hsigfacts c hc).2.2.2.1⟩)]
    have h0 := reservedOnly_nonReservedOnly ps
    unfold reservedOnly at h0 ⊢
    simp only [List.filter_append, h0]
    have hmk : keyidName ∈ reservedNames := by decide
    have hms : signatureName ∈ reservedNames := by decide
    cases eopt with
    | none => simp [expiryPart, hmk, hms]
    | some es =>
        have hme : expiryName ∈ reservedNames := by decide
        simp [expiryPart, hmk, hms, hme]
  have hc : List.IsSuffix
      (generateSignature signFn
        (urlToString (modeAUrl base ps opts.keyId eopt)))
      (urlToString (modeAUrl base ps opts.keyId eopt) ++
        asciiBytes "&signature=" ++
        generateSignature signFn
          (urlToString (modeAUrl base ps opts.keyId eopt))) :=
    ⟨urlToString (modeAUrl base ps opts.keyId eopt) ++
      asciiBytes "&signature=", rfl⟩
  have hckey : countName (modeBParams signFn base ps opts.keyId eopt)
      keyidName = 1 := by
    unfold modeBParams
    rw [countName_spSet_ne _ signatureName _ keyidName (by decide)]
    cases eopt with
    | none => exact countName_spSet ps keyidName opts.keyId
    | some es =>
        simp only [setParamsPure]
        rw [countName_spSet_ne _ expiryName _ keyidName (by decide)]
        exact countName_spSet ps keyidName opts.keyId
  have hcsig : countName (modeBParams signFn base ps opts.keyId eopt)
      signatureName = 1 := countName_spSet _ _ _
  have hcexp : ∀ es, eopt = some es →
      countName (modeBParams signFn base ps opts.keyId eopt) expiryName
        = 1 := by
    intro es hes
    subst hes
    unfold modeBParams
    rw [countName_spSet_ne _ signatureName _ expiryName (by decide)]
    simp only [setParamsPure]
    exact countName_spSet _ expiryName _
  have he := signAssetUrl_ok signFn parse now ⟨base, ps⟩ opts _
    (setSigningParams_ok parse now ps opts eopt hexp)
  have hordsuf : (∀ q ∈ ps, reservedNames.contains q.1 = false) →
      modeBParams signFn base ps opts.keyId eopt =
        ps ++ [(keyidName, opts.keyId)] ++ expiryPart eopt ++
          [(signatureName, modeBSig signFn base ps opts.keyId eopt)] ∧
      List.IsSuffix
        (formEncodeBytes (modeBSig signFn base ps opts.keyId eopt))
        (urlToString
          ⟨base, modeBParams signFn base ps opts.keyId eopt⟩) := by
    intro hfree
    have hk_not : ∀ p ∈ ps, p.1 ≠ keyidName := by
      intro p hp hcn
      have h2 := hfree p hp
      rw [hcn] at h2
      exact absurd h2 (by decide)
    have hstep1 : spSet ps keyidName opts.keyId =
        ps ++ [(keyidName, opts.keyId)] :=
      spSet_of_not_mem ps _ _ hk_not
    have hsetp : setParamsPure ps opts.keyId eopt =
        ps ++ [(keyidName, opts.keyId)] ++ expiryPart eopt := by
      cases eopt with
      | none =>
          simp only [setParamsPure, expiryPart, List.append_nil]
          exact hstep1
      | some es =>
          have hnm : ∀ p ∈ ps ++ [(keyidName, opts.keyId)],
              p.1 ≠ expiryName := by
            intro p hp
            rcases List.mem_append.mp hp with h | h
            · intro hcn
              have h2 := hfree p h
              rw [hcn] at h2
              exact absurd h2 (by decide)
            · rw [List.mem_singleton.mp h]
              exact show keyidName ≠ expiryName by decide
          simp only [setParamsPure, expiryPart]
          rw [hstep1, spSet_of_not_mem _ _ _ hnm]
    have hnm2 : ∀ p ∈ ps ++ [(keyidName, opts.keyId)] ++ expiryPart eopt,
        p.1 ≠ signatureName := by
      intro p hp
      rcases List.mem_append.mp hp with h | h
      · rcases List.mem_append.mp h with h2 | h2
        · intro hcn
          have h3 := hfree p h2
          rw [hcn] at h3
          exact absurd h3 (by decide)
        · rw [List.mem_singleton.mp h2]
          exact show keyidName ≠ signatureName by decide
      · cases eopt with
        | none => simp [expiryPart] at h
        | some es =>
            simp only [expiryPart, List.mem_singleton] at h
            rw [h]
            exact show expiryName ≠ signatureName by decide
    have hd : modeBParams signFn base ps opts.keyId eopt =
        ps ++ [(keyidName, opts.keyId)] ++ expiryPart eopt ++
          [(signatureName, modeBSig signFn base ps opts.keyId eopt)] := by
      unfold modeBParams
      rw [hsetp, spSet_of_not_mem _ _ _ hnm2]
    have hf : List.IsSuffix
        (formEncodeBytes (modeBSig signFn base ps opts.keyId eopt))
        (urlToString
          ⟨base, modeBParams signFn base ps opts.keyId eopt⟩) := by
      apply isSuffix_urlToString
      · show List.IsSuffix _
          (serializeQuery (modeBParams signFn base ps opts.keyId eopt))
        rw [hd]
        exact formEncode_sig_suffix
          (ps ++ [(keyidName, opts.keyId)] ++ expiryPart eopt)
          (modeBSig signFn base ps opts.keyId eopt)
      · show (modeBParams signFn base ps opts.keyId eopt).isEmpty = false
        rw [List.isEmpty_eq_false]
        unfold modeBParams
        exact spSet_ne_nil _ _ _
    exact ⟨hd, hf⟩
  exact ⟨hs1, hb, hc, hckey, hcsig, hcexp, he, hordsuf⟩

/-- Witness for C1 at https://h/p, key id k, no expiry, and a 64-zero-byte
signing primitive. -/
theorem C1_witness :
    signUrl (fun _ => List.replicate 64 0) (fun _ => none) 0
      ⟨asciiBytes "https://h/p", []⟩ ⟨asciiBytes "k", none⟩ = Except.ok
      (modeAOut (fun _ => List.replicate 64 0) (asciiBytes "https://h/p") []
        (asciiBytes "k") none) ∧
    reservedOnly (parseQuery (queryOf
        (modeAOut (fun _ => List.replicate 64 0) (asciiBytes "https://h/p")
          [] (asciiBytes "k") none))) =
      [(keyidName, asciiBytes "k")] ++ expiryPart none ++
        [(signatureName, generateSignature (fun _ => List.replicate 64 0)
          (urlToString (modeAUrl (asciiBytes "https://h/p") []
            (asciiBytes "k") none)))] ∧
    List.IsSuffix
      (generateSignature (fun _ => List.replicate 64 0)
        (urlToString (modeAUrl (asciiBytes "https://h/p") []
          (asciiBytes "k") none)))
      (modeAOut (fun _ => List.replicate 64 0) (asciiBytes "https://h/p") []
        (asciiBytes "k") none) ∧
    countName (modeBParams (fun _ => List.replicate 64 0)
        (asciiBytes "https://h/p") [] (asciiBytes "k") none) keyidName = 1 ∧
    countName (modeBParams (fun _ => List.replicate 64 0)
        (asciiBytes "https://h/p") [] (asciiBytes "k") none) signatureName
      = 1 ∧
    (∀ es, (none : Option String) = some es →
      countName (modeBParams (fun _ => List.replicate 64 0)
        (asciiBytes "https://h/p") [] (asciiBytes "k") none) expiryName
        = 1) ∧
    signAssetUrl (fun _ => List.replicate 64 0) (fun _ => none) 0
      ⟨asciiBytes "https://h/p", []⟩ ⟨asciiBytes "k", none⟩ = Except.ok
      (urlToString ⟨asciiBytes "https://h/p",
        modeBParams (fun _ => List.replicate 64 0)
          (asciiBytes "https://h/p") [] (asciiBytes "k") none⟩) ∧
    ((∀ q ∈ ([] : List (List Nat × List Nat)),
        reservedNames.contains q.1 = false) →
      modeBParams (fun _ => List.replicate 64 0) (asciiBytes "https://h/p")
          [] (asciiBytes "k") none =
        [] ++ [(keyidName, asciiBytes "k")] ++ expiryPart none ++
          [(signatureName, modeBSig (fun _ => List.replicate 64 0)
            (asciiBytes "https://h/p") [] (asciiBytes "k") none)] ∧
      List.IsSuffix
        (formEncodeBytes (modeBSig (fun _ => List.replicate 64 0)
          (asciiBytes "https://h/p") [] (asciiBytes "k") none))
        (urlToString ⟨asciiBytes "https://h/p",
          modeBParams (fun _ => List.replicate 64 0)
            (asciiBytes "https://h/p") [] (asciiBytes "k") none⟩)) :=
  C1_reserved_params (fun _ => List.replicate 64 0) (fun _ => none) 0
    (asciiBytes "https://h/p") [] ⟨asciiBytes "k", none⟩ none rfl
    (by decide) (by decide) (by decide)

/-- C2 counterexample: Mode B does not canonicalize the existing query.
Signing https://h/p?b=2&a=1 with key id k, no expiry, and an
empty-signature primitive keeps the caller's parameter order b then a,
while the spec's Query Canonicalizer renders those parameters sorted as
a=1&b=2, which occurs nowhere in the output. -/
theorem C2_counterexample :
    signAssetUrl (fun _ => []) (fun _ => none) 0
      ⟨asciiBytes "https://h/p",
        [(asciiBytes "b", asciiBytes "2"), (asciiBytes "a", asciiBytes "1")]⟩
      ⟨asciiBytes "k", none⟩ = Except.ok
      (asciiBytes "https://h/p?b=2&a=1&keyid=k&signature=") ∧
    getCanonicalQuery (extractUserParams
      [(asciiBytes "b", asciiBytes "2"), (asciiBytes "a", asciiBytes "1")]) =
      asciiBytes "a=1&b=2" ∧
    ¬ List.IsInfix (asciiBytes "a=1&b=2")
      (asciiBytes "https://h/p?b=2&a=1&keyid=k&signature=") :=
  ⟨by rfl, by decide, by decide⟩

/-- C2 (amended): Mode B (`signAssetUrl`) does not canonicalize the query:
it sets `keyid` (and the normalized expiry, if present) on the caller's
urlencoded parameter list in place, signs the resulting full URL string,
then sets `signature`; the non-reserved parameters keep their original
order, and each reserved name it sets ends up in the output exactly once. -/
theorem C2_mode_b_query (signFn : List Nat → List Nat)
    (parse : String → Option Int) (now : Int) (base : List Nat)
    (ps : List (List Nat × List Nat)) (opts : SigningOptions)
    (eopt : Option String)
    (hexp : normalizeExpiry parse now opts.expiry = Except.ok eopt) :
    signAssetUrl signFn parse now ⟨base, ps⟩ opts = Except.ok
      (urlToString ⟨base, modeBParams signFn base ps opts.keyId eopt⟩) ∧
    nonReservedOnly (modeBParams signFn base ps opts.keyId eopt) =
      nonReservedOnly ps ∧
    countName (modeBParams signFn base ps opts.keyId eopt) keyidName = 1 ∧
    countName (modeBParams signFn base ps opts.keyId eopt) signatureName
      = 1 ∧
    (∀ es, eopt = some es →
      countName (modeBParams signFn base ps opts.keyId eopt) expiryName
        = 1) := by
  have he := signAssetUrl_ok signFn parse now ⟨base, ps⟩ opts _
    (setSigningParams_ok parse now ps opts eopt hexp)
  have hnro : nonReservedOnly (modeBParams signFn base ps opts.keyId eopt) =
      nonReservedOnly ps := by
    unfold modeBParams
    rw [nonReservedOnly_spSet _ signatureName _ (by decide)]
    cases eopt with
    | none => exact nonReservedOnly_spSet ps keyidName opts.keyId (by decide)
    | some es =>
        simp only [setParamsPure]
        rw [nonReservedOnly_spSet _ expiryName _ (by decide),
          nonReservedOnly_spSet ps keyidName _ (by decide)]
  have hckey : countName (modeBParams signFn base ps opts.keyId eopt)
      keyidName = 1 := by
    unfold modeBParams
    rw [countName_spSet_ne _ signatureName _ keyidName (by decide)]
    cases eopt with
    | none => exact countName_spSet ps keyidName opts.keyId
    | some es =>
        simp only [setParamsPure]
        rw [countName_spSet_ne _ expiryName _ keyidName (by decide)]
        exact countName_spSet ps keyidName opts.keyId
  have hcsig : countName (modeBParams signFn base ps opts.keyId eopt)
      signatureName = 1 := countName_spSet _ _ _
  have hcexp : ∀ es, eopt = some es →
      countName (modeBParams signFn base ps opts.keyId eopt) expiryName
        = 1 := by
    intro es hes
    subst hes
    unfold modeBParams
    rw [countName_spSet_ne _ signatureName _ expiryName (by decide)]
    simp only [setParamsPure]
    exact countName_spSet _ expiryName _
  exact ⟨he, hnro, hckey, hcsig, hcexp⟩

/-- Witness for C2 at https://h/p?b=2&a=1, key id k, no expiry, and an
empty-signature primitive. -/
theorem C2_witness :
    signAssetUrl (fun _ => []) (fun _ => none) 0
      ⟨asciiBytes "https://h/p",
        [(asciiBytes "b", asciiBytes "2"), (asciiBytes "a", asciiBytes "1")]⟩
      ⟨asciiBytes "k", none⟩ = Except.ok
      (urlToString ⟨asciiBytes "https://h/p",
        modeBParams (fun _ => []) (asciiBytes "https://h/p")
          [(asciiBytes "b", asciiBytes "2"), (asciiBytes "a", asciiBytes "1")]
          (asciiBytes "k") none⟩) ∧
    nonReservedOnly (modeBParams (fun _ => []) (asciiBytes "https://h/p")
        [(asciiBytes "b", asciiBytes "2"), (asciiBytes "a", asciiBytes "1")]
        (asciiBytes "k") none) =
      nonReservedOnly
        [(asciiBytes "b", asciiBytes "2"), (asciiBytes "a", asciiBytes "1")] ∧
    countName (modeBParams (fun _ => []) (asciiBytes "https://h/p")
        [(asciiBytes "b", asciiBytes "2"), (asciiBytes "a", asciiBytes "1")]
        (asciiBytes "k") none) keyidName = 1 ∧
    countName (modeBParams (fun _ => []) (asciiBytes "https://h/p")
        [(asciiBytes "b", asciiBytes "2"), (asciiBytes "a", asciiBytes "1")]
        (asciiBytes "k") none) signatureName = 1 ∧
    (∀ es, (none : Option String) = some es →
      countName (modeBParams (fun _ => []) (asciiBytes "https://h/p")
        [(asciiBytes "b", asciiBytes "2"), (asciiBytes "a", asciiBytes "1")]
        (asciiBytes "k") none) expiryName = 1) :=
  C2_mode_b_query (fun _ => []) (fun _ => none) 0 (asciiBytes "https://h/p")
    [(asciiBytes "b", asciiBytes "2"), (asciiBytes "a", asciiBytes "1")]
    ⟨asciiBytes "k", none⟩ none rfl

end SignedUrls
